import Mathlib

/-!
# Verification of the freecad-sketch-to-icon conversion core

This file is a shallow embedding of `src/index.js` of the
freecad-sketch-to-icon package, together with theorems settling the
specification claims about it.

Modelling conventions:
* JS numbers are modelled as exact rationals (`ℚ`); `Number.parseFloat`
  on a well-formed decimal literal is modelled by `parseNum`, and an
  unparseable token (JS `NaN`) is modelled as `Option.none` (resp. a
  default where the code lets `NaN` flow silently).
* `parseFragment` (the external parse5 HTML parser) is not modelled; the
  conversion takes the already-parsed node tree as input.  A node carries
  the attributes the code reads (`style`, `transform`, `viewBox`, `d`).
  The `transform` attribute is modelled as its token list, i.e. the
  result of the code's `([a-z]+)\(([^\)]*)\)` tokenization with the
  comma-split, trimmed, parsed argument list.
* The three regex passes of `normalizePathData` (insert separators,
  collapse whitespace, rewrite each `[a-z][^a-z]+` chunk by splitting on
  spaces) are modelled by `parsePathData` / `renderPathData` over a
  structured command type; `Number(Number(x).toFixed(p))` is modelled by
  exact decimal rounding (`limitPrecision`) and shortest-decimal
  re-rendering (`renderNum`).
-/

namespace SketchToIcon

deriving instance DecidableEq for Except

attribute [local semireducible] Rat.add Rat.mul Rat.inv Rat.sub

/-- The fatal error conditions of the conversion, one constructor per
`throw` site of the source (spec names: `MissingRootError`,
`MissingViewboxError`, `InvalidViewboxError`, `UnsupportedStyleTransformError`,
`UnsupportedTransformError`, `UnsupportedElementError`,
`UnsupportedPathCommandError`). -/
inductive Err where
  | missingRoot
  | missingViewbox
  | invalidViewbox
  | styleTransform
  | invalidTransformArity (name : String)
  | unsupportedTransform (name : String)
  | unsupportedElement (name : String)
  | unsupportedPathCommand (c : Char)
deriving DecidableEq

/-- The running affine context of the walker: a translation and a scale,
as in the source's `TransformContext` typedef. -/
structure TransformContext where
  translate : ℚ × ℚ
  scale : ℚ × ℚ
deriving DecidableEq

/-- One `name(args)` token of a `transform` attribute, after the code's
regex match and comma-split/parse of the argument list. -/
structure TransformToken where
  name : String
  args : List ℚ
deriving DecidableEq

/-- The `switch (match[1])` of `extractPaths`: apply one transform token
to the running context.  `translate` adds the scaled offset to the
current translation, `scale` multiplies the current scale componentwise;
any other command name is unsupported. -/
def applyTransformToken (context : TransformContext) (tok : TransformToken) :
    Except Err TransformContext :=
  if tok.name = "translate" then
    match tok.args with
    | [dx, dy] =>
        .ok { context with
              translate := (context.scale.1 * dx + context.translate.1,
                            context.scale.2 * dy + context.translate.2) }
    | _ => .error (.invalidTransformArity "translate")
  else if tok.name = "scale" then
    match tok.args with
    | [sx, sy] =>
        .ok { context with scale := (context.scale.1 * sx, context.scale.2 * sy) }
    | _ => .error (.invalidTransformArity "scale")
  else .error (.unsupportedTransform tok.name)

/-- The `for (let match = tfrx.exec(transform); ...)` loop: fold the
tokens of a transform attribute over the running context, left to right. -/
def applyTransformTokens (context : TransformContext) (toks : List TransformToken) :
    Except Err TransformContext :=
  toks.foldlM applyTransformToken context

/-- A path-data command: the source handles `M`, `L` and `A` and throws
on every other command letter (`other`). -/
inductive PathCmd where
  | M (x y : ℚ)
  | L (x y : ℚ)
  | A (rx ry xAxisRotation largeArcFlag sweepFlag x y : ℚ)
  | other (c : Char)
deriving DecidableEq

/-- Whether a command is one of the supported `M`/`L`/`A` commands. -/
def isMLA : PathCmd → Bool
  | .other _ => false
  | _ => true

/-- Whether a command is a two-coordinate `M` or `L` command. -/
def isML : PathCmd → Bool
  | .M _ _ => true
  | .L _ _ => true
  | _ => false

/-- `Number(Number(x).toFixed(precision))`: round `x` to at most
`precision` fractional digits (exact-rational model of `toFixed`). -/
def limitPrecision (precision : ℕ) (x : ℚ) : ℚ :=
  (round (x * 10 ^ precision) : ℚ) / 10 ^ precision

/-- The transform pass of `normalizePathData` (the `switch (parts[0])`):
rewrite one command under the given context.  `M`/`L` endpoints are
scaled and translated; `A` radii are scaled, and under a net-negative
scale product the rotation is negated and the sweep flag toggled; any
other command letter throws. -/
def transformPathCommand (context : TransformContext) : PathCmd → Except Err PathCmd
  | .M x y =>
      .ok (.M (x * context.scale.1 + context.translate.1)
              (y * context.scale.2 + context.translate.2))
  | .L x y =>
      .ok (.L (x * context.scale.1 + context.translate.1)
              (y * context.scale.2 + context.translate.2))
  | .A rx ry xAxisRotation largeArcFlag sweepFlag x y =>
      if context.scale.1 * context.scale.2 < 0 then
        .ok (.A (rx * context.scale.1) (ry * context.scale.2)
                (xAxisRotation * (-1)) largeArcFlag
                (if sweepFlag = 1 then 0 else 1)
                (x * context.scale.1 + context.translate.1)
                (y * context.scale.2 + context.translate.2))
      else
        .ok (.A (rx * context.scale.1) (ry * context.scale.2)
                xAxisRotation largeArcFlag sweepFlag
                (x * context.scale.1 + context.translate.1)
                (y * context.scale.2 + context.translate.2))
  | .other c => .error (.unsupportedPathCommand c)

/-- The `M`/`L` endpoint rewrite of `transformPathCommand`, as a total
map (identity on other commands); used to state what the transform pass
does on move/line commands. -/
def shiftML (context : TransformContext) : PathCmd → PathCmd
  | .M x y =>
      .M (x * context.scale.1 + context.translate.1)
         (y * context.scale.2 + context.translate.2)
  | .L x y =>
      .L (x * context.scale.1 + context.translate.1)
         (y * context.scale.2 + context.translate.2)
  | c => c

/-- The final regex pass of `normalizePathData` (`Apply precision limit`):
every number of the rewritten command is rounded to at most `precision`
fractional digits. -/
def limitPathCommand (precision : ℕ) : PathCmd → PathCmd
  | .M x y => .M (limitPrecision precision x) (limitPrecision precision y)
  | .L x y => .L (limitPrecision precision x) (limitPrecision precision y)
  | .A rx ry xAxisRotation largeArcFlag sweepFlag x y =>
      .A (limitPrecision precision rx) (limitPrecision precision ry)
         (limitPrecision precision xAxisRotation) (limitPrecision precision largeArcFlag)
         (limitPrecision precision sweepFlag) (limitPrecision precision x)
         (limitPrecision precision y)
  | .other c => .other c

/-! ## Decimal rendering and parsing of numbers

The source relies on the JS number-to-string conversion (shortest decimal
form) and `Number.parseFloat`.  These are modelled by an executable
decimal renderer and parser over character lists. -/

/-- The decimal digit character for `d < 10`. -/
def digitChar (d : ℕ) : Char := Char.ofNat (48 + d)

/-- The numeric value of a decimal digit character. -/
def digitVal (c : Char) : ℕ := c.toNat - 48

/-- Whether a character is a decimal digit. -/
def isDigitChar (c : Char) : Bool := 48 ≤ c.toNat && c.toNat ≤ 57

/-- Digit extraction worker, structurally recursive on a fuel bound (any
fuel of at least `n` yields the digits of `n`). -/
def natDigitsRevAux : ℕ → ℕ → List ℕ
  | 0, _ => []
  | fuel + 1, n => if n = 0 then [] else n % 10 :: natDigitsRevAux fuel (n / 10)

/-- The decimal digits of `n`, least significant first (empty for 0). -/
def natDigitsRev (n : ℕ) : List ℕ := natDigitsRevAux n n

/-- The value of a little-endian digit list. -/
def natOfDigitsRev (ds : List ℕ) : ℕ := ds.foldr (fun d acc => d + 10 * acc) 0

/-- Render a natural number in decimal, no leading zeros. -/
def renderNat (n : ℕ) : List Char :=
  if n = 0 then ['0'] else ((natDigitsRev n).map digitChar).reverse

/-- The last `e` decimal digits of `n`, least significant first,
zero-padded to length `e`. -/
def fracDigitsRev (n : ℕ) : ℕ → List ℕ
  | 0 => []
  | e + 1 => n % 10 :: fracDigitsRev (n / 10) e

/-- Render the fractional part: `e` digits, most significant first. -/
def renderFrac (n e : ℕ) : List Char := ((fracDigitsRev n e).map digitChar).reverse

/-- Strip trailing decimal zeros from the fixed-point pair `(n, e)`
representing `n / 10^e`: divide out factors of 10 while the fractional
length is positive and the last digit is 0. -/
def stripZeros : ℕ → ℕ → ℕ × ℕ
  | n, 0 => (n, 0)
  | n, e + 1 => if n % 10 = 0 then stripZeros (n / 10) e else (n, e + 1)

/-- The unsigned part of the shortest decimal form of `n / 10^p`:
integer digits, then a fractional part only when nonzero after stripping
trailing zeros. -/
def renderFixedBody (n p : ℕ) : List Char :=
  let s := stripZeros n p
  renderNat (s.1 / 10 ^ s.2) ++ (if s.2 = 0 then [] else '.' :: renderFrac s.1 s.2)

/-- Render the fixed-point value `m / 10^p` in shortest decimal form:
optional sign, integer digits, and a fractional part only when nonzero,
with no trailing zeros. -/
def renderFixed (m : ℤ) (p : ℕ) : List Char :=
  if m < 0 then '-' :: renderFixedBody m.natAbs p else renderFixedBody m.natAbs p

/-- JS number-to-string for a value with at most `precision` fractional
digits: shortest round-trippable decimal form. -/
def renderNum (precision : ℕ) (q : ℚ) : List Char :=
  renderFixed (round (q * 10 ^ precision)) precision

/-- The value of a list of decimal digit characters, most significant
first. -/
def natVal (cs : List Char) : ℕ := cs.foldl (fun a c => 10 * a + digitVal c) 0

/-- Split a character list into its longest digit prefix and the rest. -/
def takeDigits : List Char → List Char × List Char
  | [] => ([], [])
  | c :: cs =>
      if isDigitChar c then
        let r := takeDigits cs
        (c :: r.1, r.2)
      else ([], c :: cs)

/-- Parse an unsigned decimal literal `digits` or `digits.digits`
(entire input consumed); `none` models JS `NaN`. -/
def parseNumCore (cs : List Char) : Option ℚ :=
  let t := takeDigits cs
  if t.1 = [] then none
  else
    match t.2 with
    | [] => some (natVal t.1 : ℚ)
    | '.' :: rest =>
        let f := takeDigits rest
        if f.1 = [] then none
        else if f.2 = [] then
          some ((natVal t.1 : ℚ) + (natVal f.1 : ℚ) / 10 ^ f.1.length)
        else none
    | _ => none

/-- `Number.parseFloat` on a well-formed decimal literal with optional
leading minus sign; `none` models `NaN`. -/
def parseNum (cs : List Char) : Option ℚ :=
  if cs.headD ' ' = '-' then (parseNumCore cs.tail).map (fun q => -q)
  else parseNumCore cs

/-- `parseFloat` where the code lets `NaN` flow: default 0 in the model. -/
def parseNumD (t : List Char) : ℚ := (parseNum t).getD 0

/-- The number of fractional digits of a rendered number: the length of
the segment after the decimal point (0 when there is no point). -/
def fracCount (cs : List Char) : ℕ := ((cs.dropWhile (fun c => c != '.')).drop 1).length

/-! ## Path-data tokenization and rendering -/

/-- An ASCII letter, the `[a-z]` character class with the `i` flag. -/
def isAsciiLetter (c : Char) : Bool :=
  (65 ≤ c.toNat && c.toNat ≤ 90) || (97 ≤ c.toNat && c.toNat ≤ 122)

/-- A token is a command letter exactly when it is a single alphabetic
character (the `[a-z]`/`i` chunk heads of the source's regex). -/
def isCommandToken (t : List Char) : Bool :=
  match t with
  | [c] => isAsciiLetter c
  | _ => false

/-- `String.prototype.split(" ")`: split on every single space, keeping
empty fields. -/
def splitSpace : List Char → List (List Char)
  | [] => [[]]
  | c :: cs =>
      if c = ' ' then [] :: splitSpace cs
      else
        match splitSpace cs with
        | t :: ts => (c :: t) :: ts
        | [] => [[c]]

/-- Build one structured command from its letter and argument tokens,
indexing the argument positions exactly as the source indexes `parts`. -/
def mkCommand (c : Char) (args : List (List Char)) : PathCmd :=
  match c with
  | 'M' => .M (parseNumD (args.getD 0 [])) (parseNumD (args.getD 1 []))
  | 'L' => .L (parseNumD (args.getD 0 [])) (parseNumD (args.getD 1 []))
  | 'A' =>
      .A (parseNumD (args.getD 0 [])) (parseNumD (args.getD 1 []))
         (parseNumD (args.getD 2 [])) (parseNumD (args.getD 3 []))
         (parseNumD (args.getD 4 [])) (parseNumD (args.getD 5 []))
         (parseNumD (args.getD 6 []))
  | c => .other c

/-- Emit the command accumulated so far, if any. -/
def flushCommand : Option (Char × List (List Char)) → List PathCmd
  | none => []
  | some (c, args) => [mkCommand c args.reverse]

/-- Group a token list into commands: each single-letter token starts a
new command collecting the following non-letter tokens as arguments
(the `[a-z][^a-z]+` chunking of the source). -/
def parseTokensAux : Option (Char × List (List Char)) → List (List Char) → List PathCmd
  | cur, [] => flushCommand cur
  | cur, t :: ts =>
      if isCommandToken t then
        flushCommand cur ++ parseTokensAux (some (t.headD ' ', [])) ts
      else
        match cur with
        | none => parseTokensAux none ts
        | some (c, args) => parseTokensAux (some (c, t :: args)) ts

/-- Tokenize a path-data string into structured commands (the first two
regex passes of `normalizePathData` plus the per-chunk space split). -/
def parsePathData (data : String) : List PathCmd :=
  parseTokensAux none (splitSpace data.data)

/-- The token list of a rewritten command (`parts` before `join(" ")`). -/
def renderCommandTokens (precision : ℕ) : PathCmd → List (List Char)
  | .M x y => [['M'], renderNum precision x, renderNum precision y]
  | .L x y => [['L'], renderNum precision x, renderNum precision y]
  | .A rx ry xAxisRotation largeArcFlag sweepFlag x y =>
      [['A'], renderNum precision rx, renderNum precision ry,
       renderNum precision xAxisRotation, renderNum precision largeArcFlag,
       renderNum precision sweepFlag, renderNum precision x, renderNum precision y]
  | .other c => [[c]]

/-- Join tokens with single spaces (`parts.join(" ")` over all chunks). -/
def joinSpace : List (List Char) → List Char
  | [] => []
  | [t] => t
  | t :: ts => t ++ ' ' :: joinSpace ts

/-- Render a command list back to a path-data string. -/
def renderPathData (precision : ℕ) (cmds : List PathCmd) : String :=
  String.mk (joinSpace ((cmds.map (renderCommandTokens precision)).flatten))

/-- `normalizePathData`: tokenize, rewrite every command under the
context (throwing on unsupported commands), then apply the precision
limit to every number and re-render. -/
def normalizePathData (data : String) (context : TransformContext) (precision : ℕ) :
    Except Err String := do
  let transformed ← (parsePathData data).mapM (transformPathCommand context)
  pure (renderPathData precision (transformed.map (limitPathCommand precision)))

/-! ## The node tree and the walker -/

/-- Substring test (`String.prototype.includes`). -/
def containsSub : List Char → List Char → Bool
  | [], target => target.isEmpty
  | c :: rest, target => target.isPrefixOf (c :: rest) || containsSub rest target

/-- `style?.includes("transform")`. -/
def styleHasTransform : Option String → Bool
  | none => false
  | some s => containsSub s.data "transform".data

/-- A parsed markup node: its element name, the attributes the code
reads (`style`, `transform` as its token list, `viewBox`, `d`), and its
children in document order. -/
inductive Node where
  | mk (nodeName : String) (style : Option String) (transform : List TransformToken)
       (viewBox : Option String) (d : Option String) (childNodes : List Node)

/-- The element name of a node. -/
def Node.nodeName : Node → String
  | .mk n _ _ _ _ _ => n

/-- The `style` attribute of a node. -/
def Node.style : Node → Option String
  | .mk _ s _ _ _ _ => s

/-- The tokenized `transform` attribute of a node (empty when absent). -/
def Node.transform : Node → List TransformToken
  | .mk _ _ t _ _ _ => t

/-- The `viewBox` attribute of a node. -/
def Node.viewBox : Node → Option String
  | .mk _ _ _ v _ _ => v

/-- The `d` attribute of a node. -/
def Node.d : Node → Option String
  | .mk _ _ _ _ d _ => d

/-- The children of a node, in document order. -/
def Node.childNodes : Node → List Node
  | .mk _ _ _ _ _ c => c

mutual

/-- `findRoot`: the first node in depth-first pre-order whose name is
`svg`. -/
def findRoot : Node → Option Node
  | node@(.mk name _ _ _ _ children) =>
      if name = "svg" then some node
      else findRootList children
termination_by node => sizeOf node

/-- `findRoot` over a child list, first match wins. -/
def findRootList : List Node → Option Node
  | [] => none
  | n :: ns =>
      match findRoot n with
      | some r => some r
      | none => findRootList ns
termination_by nodes => sizeOf nodes

end

mutual

/-- `extractPaths`: reject style transforms, fold the transform tokens
into the running context, dispatch on the element kind (unsupported
shapes throw; a `path` with a truthy `d` contributes its normalized
data), then recurse into the children with the updated context.  The
returned list is the collected normalized path strings in traversal
order. -/
def extractPaths (node : Node) (context : TransformContext) (precision : ℕ) :
    Except Err (List String) :=
  match node with
  | .mk name style transform _viewBox d children =>
    if styleHasTransform style then .error .styleTransform
    else
      match applyTransformTokens context transform with
      | .error e => .error e
      | .ok context1 =>
        let own : Except Err (List String) :=
          if name = "rect" ∨ name = "circle" ∨ name = "ellipse" ∨ name = "line" ∨
              name = "polyline" then
            .error (.unsupportedElement name)
          else if name = "path" then
            match d with
            | some data =>
                if data = "" then .ok []
                else
                  match normalizePathData data context1 precision with
                  | .ok s => .ok [s]
                  | .error e => .error e
            | none => .ok []
          else .ok []
        match own with
        | .error e => .error e
        | .ok ps =>
          match extractPathsList children context1 precision with
          | .error e => .error e
          | .ok rest => .ok (ps ++ rest)

/-- `childNodes.forEach(c => extractPaths(c, context))`, collecting the
results in order. -/
def extractPathsList (nodes : List Node) (context : TransformContext) (precision : ℕ) :
    Except Err (List String) :=
  match nodes with
  | [] => .ok []
  | n :: ns =>
      match extractPaths n context precision with
      | .error e => .error e
      | .ok a =>
        match extractPathsList ns context precision with
        | .error e => .error e
        | .ok b => .ok (a ++ b)

end

/-! ## The conversion entry point -/

/-- The options record of `sketchToIcon` (absent fields use defaults). -/
structure Options where
  exportedPaddingFactor : Option ℚ
  fill : Option String
  fillRule : Option String
  precision : Option ℕ

/-- The viewport computation of `sketchToIcon`: split the viewBox on
spaces, parse the four parts, undo the export padding, and return
`(xOffset, yOffset, width, height)`; `none` when any parsed or derived
value is `NaN`. -/
def resolveViewport (viewBoxStr : String) (exportedPaddingFactor : ℚ) :
    Option (ℚ × ℚ × ℚ × ℚ) :=
  let viewBoxParts := splitSpace viewBoxStr.data
  let w? := (parseNum (viewBoxParts.getD 2 [])).map
      (fun x => x / (1 + exportedPaddingFactor * 2))
  let h? := (parseNum (viewBoxParts.getD 3 [])).map
      (fun x => x / (1 + exportedPaddingFactor * 2))
  match parseNum (viewBoxParts.getD 0 []), parseNum (viewBoxParts.getD 1 []), w?, h? with
  | some a, some b, some w, some h =>
      some (a - w * exportedPaddingFactor, b - h * exportedPaddingFactor, w, h)
  | _, _, _, _ => none

/-- JS number-to-string for the output viewBox dimensions. -/
def renderQ (q : ℚ) : String := String.mk (renderNum 17 q)

/-- The output document template of `sketchToIcon`: one root `svg`
element with namespace, version 1.1 and frame `0 0 width height`,
containing exactly one `path` element with the joined data and the
configured fill attributes. -/
def svgDoc (width height d fill fillRule : String) : String :=
  "<svg xmlns=\"http://www.w3.org/2000/svg\" version=\"1.1\" viewBox=\"0 0 " ++ width ++
    " " ++ height ++ "\"><path d=\"" ++ d ++ "\" fill=\"" ++ fill ++ "\" fill-rule=\"" ++
    fillRule ++ "\" /></svg>"

/-- `sketchToIcon`: find the drawing root, resolve the viewport (missing
or empty viewBox and `NaN` values are fatal), walk the tree collecting
normalized path strings from the root context, and emit the output
document. -/
def sketchToIcon (input : Node) (options : Options) : Except Err String :=
  let precision := options.precision.getD 5
  match findRoot input with
  | none => .error .missingRoot
  | some root =>
    let exportedPaddingFactor := options.exportedPaddingFactor.getD (1 / 100)
    match root.viewBox with
    | none => .error .missingViewbox
    | some viewBoxStr =>
      if viewBoxStr = "" then .error .missingViewbox
      else
        match resolveViewport viewBoxStr exportedPaddingFactor with
        | none => .error .invalidViewbox
        | some (xOffset, yOffset, width, height) =>
          match extractPaths root { translate := (xOffset, yOffset), scale := (1, 1) }
              precision with
          | .error e => .error e
          | .ok paths =>
            .ok (svgDoc (renderQ width) (renderQ height) (String.intercalate " " paths)
                  (options.fill.getD "currentColor") (options.fillRule.getD "evenodd"))

/-! ## Lemmas: decimal digits and digit strings -/

theorem natDigitsRevAux_zero (fuel : ℕ) : natDigitsRevAux fuel 0 = [] := by
  cases fuel <;> simp [natDigitsRevAux]

theorem natDigitsRevAux_congr (n : ℕ) :
    ∀ f1 f2, n ≤ f1 → n ≤ f2 → natDigitsRevAux f1 n = natDigitsRevAux f2 n := by
  induction n using Nat.strong_induction_on with
  | _ n ih =>
    intro f1 f2 h1 h2
    rcases Nat.eq_zero_or_pos n with hn | hn
    · subst hn
      rw [natDigitsRevAux_zero, natDigitsRevAux_zero]
    · obtain ⟨a, rfl⟩ : ∃ a, f1 = a + 1 := ⟨f1 - 1, by omega⟩
      obtain ⟨b, rfl⟩ : ∃ b, f2 = b + 1 := ⟨f2 - 1, by omega⟩
      have hd : n / 10 < n := Nat.div_lt_self hn (by norm_num)
      simp only [natDigitsRevAux, if_neg (Nat.pos_iff_ne_zero.mp hn)]
      exact congrArg _ (ih (n / 10) hd a b (by omega) (by omega))

theorem natDigitsRev_eq (n : ℕ) :
    natDigitsRev n = if n = 0 then [] else n % 10 :: natDigitsRev (n / 10) := by
  rcases Nat.eq_zero_or_pos n with hn | hn
  · subst hn
    simp [natDigitsRev, natDigitsRevAux_zero]
  · obtain ⟨a, rfl⟩ : ∃ a, n = a + 1 := ⟨n - 1, by omega⟩
    rw [if_neg (by omega)]
    show natDigitsRevAux (a + 1) (a + 1) = _
    simp only [natDigitsRevAux, if_neg (by omega : ¬a + 1 = 0)]
    congr 1
    have hle : (a + 1) / 10 ≤ a := by
      have := Nat.div_lt_self (Nat.succ_pos a) (by norm_num : (1 : ℕ) < 10)
      omega
    exact natDigitsRevAux_congr ((a + 1) / 10) a ((a + 1) / 10) hle (le_refl _)

theorem natDigitsRev_lt_ten (n : ℕ) : ∀ d ∈ natDigitsRev n, d < 10 := by
  induction n using Nat.strong_induction_on with
  | _ n ih =>
    rw [natDigitsRev_eq]
    by_cases hn : n = 0
    · simp [hn]
    · rw [if_neg hn]
      intro d hd
      simp only [List.mem_cons] at hd
      rcases hd with rfl | hd
      · exact Nat.mod_lt _ (by omega)
      · exact ih (n / 10) (Nat.div_lt_self (by omega) (by norm_num)) d hd

theorem natOfDigitsRev_natDigitsRev (n : ℕ) : natOfDigitsRev (natDigitsRev n) = n := by
  induction n using Nat.strong_induction_on with
  | _ n ih =>
    rw [natDigitsRev_eq]
    by_cases hn : n = 0
    · simp [hn, natOfDigitsRev]
    · rw [if_neg hn]
      have h1 := ih (n / 10) (Nat.div_lt_self (by omega) (by norm_num))
      simp only [natOfDigitsRev, List.foldr_cons] at h1 ⊢
      rw [h1]
      omega

theorem digitVal_digitChar {d : ℕ} (h : d < 10) : digitVal (digitChar d) = d := by
  interval_cases d <;> decide

theorem isDigitChar_digitChar {d : ℕ} (h : d < 10) : isDigitChar (digitChar d) = true := by
  interval_cases d <;> decide

theorem isDigitChar_toNat {c : Char} (h : isDigitChar c = true) :
    48 ≤ c.toNat ∧ c.toNat ≤ 57 := by
  simp only [isDigitChar, Bool.and_eq_true, decide_eq_true_eq] at h
  exact h

theorem natVal_nil : natVal [] = 0 := rfl

theorem foldl_digitStep (xs : List Char) (a : ℕ) :
    xs.foldl (fun b c => 10 * b + digitVal c) a = a * 10 ^ xs.length + natVal xs := by
  induction xs generalizing a with
  | nil => simp [natVal]
  | cons c xs ih =>
      simp only [List.foldl_cons, List.length_cons, natVal] at *
      rw [ih (10 * a + digitVal c), ih (10 * 0 + digitVal c)]
      ring

theorem natVal_append (xs ys : List Char) :
    natVal (xs ++ ys) = natVal xs * 10 ^ ys.length + natVal ys := by
  simp only [natVal, List.foldl_append]
  exact foldl_digitStep ys _

theorem natVal_reverse_map (ds : List ℕ) (h : ∀ d ∈ ds, d < 10) :
    natVal ((ds.map digitChar).reverse) = natOfDigitsRev ds := by
  induction ds with
  | nil => rfl
  | cons d ds ih =>
      simp only [List.map_cons, List.reverse_cons]
      rw [natVal_append, ih (fun x hx => h x (List.mem_cons_of_mem _ hx))]
      simp only [natVal, List.foldl_cons, List.foldl_nil, List.length_cons, List.length_nil,
        natOfDigitsRev, List.foldr_cons]
      rw [digitVal_digitChar (h d (List.mem_cons_self _ _))]
      simp only [natOfDigitsRev] at *
      ring

theorem natVal_renderNat (n : ℕ) : natVal (renderNat n) = n := by
  by_cases hn : n = 0
  · subst hn; decide
  · unfold renderNat
    rw [if_neg hn, natVal_reverse_map _ (natDigitsRev_lt_ten n), natOfDigitsRev_natDigitsRev]

theorem renderNat_digits (n : ℕ) : ∀ c ∈ renderNat n, isDigitChar c = true := by
  by_cases hn : n = 0
  · subst hn; decide
  · unfold renderNat
    rw [if_neg hn]
    intro c hc
    rw [List.mem_reverse] at hc
    obtain ⟨d, hd, rfl⟩ := List.mem_map.mp hc
    exact isDigitChar_digitChar (natDigitsRev_lt_ten n d hd)

theorem renderNat_ne_nil (n : ℕ) : renderNat n ≠ [] := by
  by_cases hn : n = 0
  · subst hn; decide
  · unfold renderNat
    rw [if_neg hn]
    simp only [ne_eq, List.reverse_eq_nil_iff]
    rw [natDigitsRev_eq, if_neg hn]
    simp

theorem length_fracDigitsRev (e : ℕ) : ∀ n, (fracDigitsRev n e).length = e := by
  induction e with
  | zero => intro n; rfl
  | succ e ih => intro n; simp [fracDigitsRev, ih]

theorem fracDigitsRev_lt_ten (e : ℕ) : ∀ n, ∀ d ∈ fracDigitsRev n e, d < 10 := by
  induction e with
  | zero => intro n d hd; simp [fracDigitsRev] at hd
  | succ e ih =>
      intro n d hd
      simp only [fracDigitsRev, List.mem_cons] at hd
      rcases hd with rfl | hd
      · exact Nat.mod_lt _ (by omega)
      · exact ih (n / 10) d hd

theorem mod_pow_split (n e : ℕ) : n % 10 ^ (e + 1) = n % 10 + 10 * (n / 10 % 10 ^ e) := by
  have hpe : 0 < 10 ^ e := pow_pos (by norm_num) e
  have h1 : n % 10 < 10 := Nat.mod_lt _ (by norm_num)
  have h2 : n / 10 % 10 ^ e < 10 ^ e := Nat.mod_lt _ hpe
  have h3 : n = n % 10 + 10 * (n / 10 % 10 ^ e) + 10 ^ (e + 1) * (n / 10 / 10 ^ e) := by
    have d1 := Nat.div_add_mod n 10
    have d2 := Nat.div_add_mod (n / 10) (10 ^ e)
    rw [pow_succ]
    nlinarith [d1, d2]
  have h4 : n % 10 + 10 * (n / 10 % 10 ^ e) < 10 ^ (e + 1) := by
    rw [pow_succ]
    omega
  conv_lhs => rw [h3]
  rw [Nat.add_mul_mod_self_left]
  exact Nat.mod_eq_of_lt h4

theorem natOfDigitsRev_fracDigitsRev (e : ℕ) :
    ∀ n, natOfDigitsRev (fracDigitsRev n e) = n % 10 ^ e := by
  induction e with
  | zero => intro n; simp [fracDigitsRev, natOfDigitsRev, Nat.mod_one]
  | succ e ih =>
      intro n
      simp only [fracDigitsRev, natOfDigitsRev, List.foldr_cons] at *
      rw [ih (n / 10), mod_pow_split]

theorem stripZeros_spec (e : ℕ) : ∀ n,
    (stripZeros n e).2 ≤ e ∧
    n = (stripZeros n e).1 * 10 ^ (e - (stripZeros n e).2) ∧
    ((stripZeros n e).2 ≠ 0 → (stripZeros n e).1 % 10 ≠ 0) := by
  induction e with
  | zero =>
      intro n
      exact ⟨le_refl 0, by simp [stripZeros], fun h => absurd rfl h⟩
  | succ e ih =>
      intro n
      by_cases h : n % 10 = 0
      · have hs : stripZeros n (e + 1) = stripZeros (n / 10) e := by
          simp [stripZeros, h]
        obtain ⟨ha, hb, hc⟩ := ih (n / 10)
        rw [hs]
        refine ⟨le_trans ha (by omega), ?_, hc⟩
        have h2 : e + 1 - (stripZeros (n / 10) e).2 = e - (stripZeros (n / 10) e).2 + 1 := by
          omega
        rw [h2, pow_succ]
        have d1 := Nat.div_add_mod n 10
        calc n = 10 * (n / 10) := by omega
          _ = 10 * ((stripZeros (n / 10) e).1 * 10 ^ (e - (stripZeros (n / 10) e).2)) := by
              rw [← hb]
          _ = (stripZeros (n / 10) e).1 * (10 ^ (e - (stripZeros (n / 10) e).2) * 10) := by
              ring
      · have hs : stripZeros n (e + 1) = (n, e + 1) := by simp [stripZeros, h]
        rw [hs]
        exact ⟨le_refl _, by simp, fun _ => h⟩

theorem takeDigits_append (ds rest : List Char) (h : ∀ c ∈ ds, isDigitChar c = true)
    (h2 : ∀ c, rest.head? = some c → isDigitChar c = false) :
    takeDigits (ds ++ rest) = (ds, rest) := by
  induction ds with
  | nil =>
      simp only [List.nil_append]
      cases rest with
      | nil => rfl
      | cons c cs => simp [takeDigits, h2 c rfl]
  | cons d ds ih =>
      simp only [List.cons_append, takeDigits, h d (List.mem_cons_self _ _), if_true,
        List.append_eq]
      rw [ih (fun c hc => h c (List.mem_cons_of_mem _ hc))]

theorem takeDigits_all (ds : List Char) (h : ∀ c ∈ ds, isDigitChar c = true) :
    takeDigits ds = (ds, []) := by
  have := takeDigits_append ds [] h (by intro c hc; simp at hc)
  simpa using this

theorem renderFrac_digits (n e : ℕ) : ∀ c ∈ renderFrac n e, isDigitChar c = true := by
  intro c hc
  simp only [renderFrac, List.mem_reverse] at hc
  obtain ⟨d, hd, rfl⟩ := List.mem_map.mp hc
  exact isDigitChar_digitChar (fracDigitsRev_lt_ten e n d hd)

theorem length_renderFrac (n e : ℕ) : (renderFrac n e).length = e := by
  simp [renderFrac, length_fracDigitsRev]

theorem natVal_renderFrac (n e : ℕ) : natVal (renderFrac n e) = n % 10 ^ e := by
  rw [renderFrac, natVal_reverse_map _ (fracDigitsRev_lt_ten e n), natOfDigitsRev_fracDigitsRev]

/-! ## Lemmas: number rendering round-trips through parsing -/

theorem headD_append_of_ne_nil {xs ys : List Char} (h : xs ≠ []) (d : Char) :
    (xs ++ ys).headD d = xs.headD d := by
  cases xs with
  | nil => exact absurd rfl h
  | cons a as => rfl

theorem parseNumCore_renderFixedBody (n p : ℕ) :
    parseNumCore (renderFixedBody n p) = some ((n : ℚ) / 10 ^ p) := by
  obtain ⟨hle, hval, hlast⟩ := stripZeros_spec p n
  by_cases he : (stripZeros n p).2 = 0
  · have hbody : renderFixedBody n p = renderNat (stripZeros n p).1 := by
      simp [renderFixedBody, he]
    rw [show p - (stripZeros n p).2 = p from by omega] at hval
    rw [hbody, parseNumCore]
    simp only [takeDigits_all _ (renderNat_digits _)]
    rw [if_neg (renderNat_ne_nil _)]
    simp only [natVal_renderNat]
    congr 1
    rw [eq_div_iff (by positivity : ((10 : ℚ) ^ p) ≠ 0)]
    exact_mod_cast (congrArg (fun z : ℕ => (z : ℚ)) hval).symm
  · have hbody : renderFixedBody n p =
        renderNat ((stripZeros n p).1 / 10 ^ (stripZeros n p).2) ++
          '.' :: renderFrac (stripZeros n p).1 (stripZeros n p).2 := by
      simp [renderFixedBody, he]
    rw [hbody, parseNumCore]
    have htd : takeDigits
        (renderNat ((stripZeros n p).1 / 10 ^ (stripZeros n p).2) ++
          '.' :: renderFrac (stripZeros n p).1 (stripZeros n p).2) =
        (renderNat ((stripZeros n p).1 / 10 ^ (stripZeros n p).2),
          '.' :: renderFrac (stripZeros n p).1 (stripZeros n p).2) := by
      refine takeDigits_append _ _ (renderNat_digits _) ?_
      intro c hc
      simp only [List.head?_cons, Option.some.injEq] at hc
      subst hc
      decide
    simp only [htd]
    rw [if_neg (renderNat_ne_nil _)]
    have htf : takeDigits (renderFrac (stripZeros n p).1 (stripZeros n p).2) =
        (renderFrac (stripZeros n p).1 (stripZeros n p).2, []) :=
      takeDigits_all _ (renderFrac_digits _ _)
    simp only [htf]
    have hfne : renderFrac (stripZeros n p).1 (stripZeros n p).2 ≠ [] := by
      intro hcon
      have := length_renderFrac (stripZeros n p).1 (stripZeros n p).2
      rw [hcon] at this
      simp at this
      exact he this.symm
    rw [if_neg hfne]
    simp only [if_true, natVal_renderNat, natVal_renderFrac, length_renderFrac]
    -- value: I + rem / 10^e = n / 10^p
    have hE : ((10 : ℚ) ^ (stripZeros n p).2) ≠ 0 := by positivity
    have hP : ((10 : ℚ) ^ p) ≠ 0 := by positivity
    have hdm := Nat.div_add_mod (stripZeros n p).1 (10 ^ (stripZeros n p).2)
    have hq : ((10 : ℚ) ^ (stripZeros n p).2) *
        (((stripZeros n p).1 / 10 ^ (stripZeros n p).2 : ℕ) : ℚ) +
        (((stripZeros n p).1 % 10 ^ (stripZeros n p).2 : ℕ) : ℚ) =
        (((stripZeros n p).1 : ℕ) : ℚ) := by
      exact_mod_cast congrArg (fun z : ℕ => (z : ℚ)) hdm
    have hnq : ((n : ℕ) : ℚ) =
        (((stripZeros n p).1 : ℕ) : ℚ) * 10 ^ (p - (stripZeros n p).2) := by
      exact_mod_cast congrArg (fun z : ℕ => (z : ℚ)) hval
    have hpow : (10 : ℚ) ^ p = 10 ^ (p - (stripZeros n p).2) * 10 ^ (stripZeros n p).2 := by
      rw [← pow_add]
      congr 1
      omega
    congr 1
    rw [hnq, hpow]
    have hF : ((10 : ℚ) ^ (p - (stripZeros n p).2)) ≠ 0 := by positivity
    have hs1 : (((stripZeros n p).1 / 10 ^ (stripZeros n p).2 : ℕ) : ℚ) +
        (((stripZeros n p).1 % 10 ^ (stripZeros n p).2 : ℕ) : ℚ) / 10 ^ (stripZeros n p).2 =
        (((stripZeros n p).1 : ℕ) : ℚ) / 10 ^ (stripZeros n p).2 := by
      rw [add_div' _ _ _ hE]
      congr 1
      linear_combination hq
    rw [hs1]
    field_simp
    ring

theorem renderFixedBody_eq_append (n p : ℕ) :
    renderFixedBody n p = renderNat ((stripZeros n p).1 / 10 ^ (stripZeros n p).2) ++
      (if (stripZeros n p).2 = 0 then []
       else '.' :: renderFrac (stripZeros n p).1 (stripZeros n p).2) := rfl

theorem renderFixedBody_ne_nil (n p : ℕ) : renderFixedBody n p ≠ [] := by
  rw [renderFixedBody_eq_append]
  intro hcon
  exact renderNat_ne_nil _ (List.append_eq_nil.mp hcon).1

theorem headD_renderFixedBody (n p : ℕ) :
    isDigitChar ((renderFixedBody n p).headD ' ') = true := by
  rw [renderFixedBody_eq_append, headD_append_of_ne_nil (renderNat_ne_nil _)]
  cases hc : renderNat ((stripZeros n p).1 / 10 ^ (stripZeros n p).2) with
  | nil => exact absurd hc (renderNat_ne_nil _)
  | cons a as =>
      have ha := renderNat_digits _ a (by rw [hc]; exact List.mem_cons_self _ _)
      simpa using ha

theorem parseNum_renderFixed (m : ℤ) (p : ℕ) :
    parseNum (renderFixed m p) = some ((m : ℚ) / 10 ^ p) := by
  by_cases hm : m < 0
  · rw [renderFixed, if_pos hm, parseNum]
    simp only [List.headD_cons, if_pos rfl, List.tail_cons, parseNumCore_renderFixedBody,
      Option.map_some']
    rw [if_pos trivial]
    congr 1
    have hna : ((m.natAbs : ℕ) : ℚ) = -(m : ℚ) := by
      calc ((m.natAbs : ℕ) : ℚ) = ((m.natAbs : ℤ) : ℚ) := by rw [Int.cast_natCast]
        _ = ((-m : ℤ) : ℚ) := by rw [Int.ofNat_natAbs_of_nonpos (le_of_lt hm)]
        _ = -(m : ℚ) := by push_cast; ring
    rw [hna]
    ring
  · rw [renderFixed, if_neg hm, parseNum]
    have hd := headD_renderFixedBody m.natAbs p
    rw [if_neg (by intro h; rw [h] at hd; exact absurd hd (by decide))]
    rw [parseNumCore_renderFixedBody]
    congr 1
    have hna : ((m.natAbs : ℕ) : ℚ) = (m : ℚ) := by
      calc ((m.natAbs : ℕ) : ℚ) = ((m.natAbs : ℤ) : ℚ) := by rw [Int.cast_natCast]
        _ = (m : ℚ) := by rw [Int.natAbs_of_nonneg (not_lt.mp hm)]
    rw [hna]

theorem mem_renderFixedBody (n p : ℕ) :
    ∀ c ∈ renderFixedBody n p, isDigitChar c = true ∨ c = '.' := by
  intro c hc
  rw [renderFixedBody_eq_append] at hc
  simp only [List.mem_append] at hc
  rcases hc with hc | hc
  · exact Or.inl (renderNat_digits _ _ hc)
  · by_cases he : (stripZeros n p).2 = 0
    · rw [if_pos he] at hc
      simp at hc
    · rw [if_neg he] at hc
      simp only [List.mem_cons] at hc
      rcases hc with rfl | hc
      · exact Or.inr rfl
      · exact Or.inl (renderFrac_digits _ _ _ hc)

theorem mem_renderFixed (m : ℤ) (p : ℕ) :
    ∀ c ∈ renderFixed m p, isDigitChar c = true ∨ c = '-' ∨ c = '.' := by
  intro c hc
  rw [renderFixed] at hc
  by_cases hm : m < 0
  · rw [if_pos hm] at hc
    simp only [List.mem_cons] at hc
    rcases hc with rfl | hc
    · exact Or.inr (Or.inl rfl)
    · rcases mem_renderFixedBody _ _ c hc with h | h
      · exact Or.inl h
      · exact Or.inr (Or.inr h)
  · rw [if_neg hm] at hc
    rcases mem_renderFixedBody _ _ c hc with h | h
    · exact Or.inl h
    · exact Or.inr (Or.inr h)

theorem renderFixed_ne_nil (m : ℤ) (p : ℕ) : renderFixed m p ≠ [] := by
  rw [renderFixed]
  by_cases hm : m < 0
  · rw [if_pos hm]
    exact List.cons_ne_nil _ _
  · rw [if_neg hm]
    exact renderFixedBody_ne_nil _ _

theorem space_not_mem_renderFixed (m : ℤ) (p : ℕ) : ' ' ∉ renderFixed m p := by
  intro h
  rcases mem_renderFixed m p ' ' h with h1 | h1 | h1
  · exact absurd h1 (by decide)
  · exact absurd h1 (by decide)
  · exact absurd h1 (by decide)

theorem isAsciiLetter_eq_false_of_digit {c : Char} (h : isDigitChar c = true) :
    isAsciiLetter c = false := by
  obtain ⟨h1, h2⟩ := isDigitChar_toNat h
  rw [Bool.eq_false_iff]
  intro hcon
  simp only [isAsciiLetter, Bool.or_eq_true, Bool.and_eq_true, decide_eq_true_eq] at hcon
  omega

theorem isCommandToken_renderFixed (m : ℤ) (p : ℕ) :
    isCommandToken (renderFixed m p) = false := by
  cases hr : renderFixed m p with
  | nil => rfl
  | cons a as =>
      cases as with
      | nil =>
          have ha := mem_renderFixed m p a (by rw [hr]; exact List.mem_cons_self _ _)
          simp only [isCommandToken]
          rcases ha with h | h | h
          · exact isAsciiLetter_eq_false_of_digit h
          · subst h; decide
          · subst h; decide
      | cons b bs => rfl

/-! ## Lemmas: precision limiting -/

theorem limitPrecision_mul_pow (p : ℕ) (x : ℚ) :
    limitPrecision p x * 10 ^ p = (round (x * 10 ^ p) : ℚ) := by
  rw [limitPrecision, div_mul_cancel₀]
  positivity

theorem limitPrecision_idem (p : ℕ) (x : ℚ) :
    limitPrecision p (limitPrecision p x) = limitPrecision p x := by
  conv_lhs => rw [limitPrecision, limitPrecision_mul_pow, round_intCast]
  rw [limitPrecision]

theorem renderNum_limitPrecision (p : ℕ) (x : ℚ) :
    renderNum p (limitPrecision p x) = renderFixed (round (x * 10 ^ p)) p := by
  rw [renderNum, limitPrecision_mul_pow, round_intCast]

theorem parseNum_renderNum_limit (p : ℕ) (x : ℚ) :
    parseNum (renderNum p (limitPrecision p x)) = some (limitPrecision p x) := by
  rw [renderNum_limitPrecision, parseNum_renderFixed, limitPrecision]

/-! ## Lemmas: path-data tokenization round-trips -/

theorem renderNum_eq_renderFixed (p : ℕ) (q : ℚ) :
    renderNum p q = renderFixed (round (q * 10 ^ p)) p := rfl

theorem isCommandToken_renderNum (p : ℕ) (q : ℚ) :
    isCommandToken (renderNum p q) = false := by
  rw [renderNum_eq_renderFixed]
  exact isCommandToken_renderFixed _ _

theorem space_not_mem_renderNum (p : ℕ) (q : ℚ) : ' ' ∉ renderNum p q := by
  rw [renderNum_eq_renderFixed]
  exact space_not_mem_renderFixed _ _

theorem parseNumD_renderNum {p : ℕ} {v : ℚ} (h : limitPrecision p v = v) :
    parseNumD (renderNum p v) = v := by
  have := parseNum_renderNum_limit p v
  rw [h] at this
  rw [parseNumD, this, Option.getD_some]

theorem splitSpace_no_space (t : List Char) (h : ' ' ∉ t) : splitSpace t = [t] := by
  induction t with
  | nil => rfl
  | cons c cs ih =>
      have hc : ¬c = ' ' := fun hcon => h (by rw [hcon]; exact List.mem_cons_self _ _)
      rw [splitSpace, if_neg hc, ih (fun hm => h (List.mem_cons_of_mem _ hm))]

theorem splitSpace_append_space (t rest : List Char) (h : ' ' ∉ t) :
    splitSpace (t ++ ' ' :: rest) = t :: splitSpace rest := by
  induction t with
  | nil => simp [splitSpace]
  | cons c cs ih =>
      have hc : ¬c = ' ' := fun hcon => h (by rw [hcon]; exact List.mem_cons_self _ _)
      rw [List.cons_append, splitSpace, if_neg hc,
        ih (fun hm => h (List.mem_cons_of_mem _ hm))]

theorem splitSpace_joinSpace (toks : List (List Char)) (hne : toks ≠ [])
    (h : ∀ t ∈ toks, ' ' ∉ t) :
    splitSpace (joinSpace toks) = toks := by
  induction toks with
  | nil => exact absurd rfl hne
  | cons t ts ih =>
      cases ts with
      | nil => exact splitSpace_no_space t (h t (List.mem_cons_self _ _))
      | cons t2 ts2 =>
          rw [show joinSpace (t :: t2 :: ts2) = t ++ ' ' :: joinSpace (t2 :: ts2) from rfl,
            splitSpace_append_space _ _ (h t (List.mem_cons_self _ _)),
            ih (List.cons_ne_nil _ _) (fun u hu => h u (List.mem_cons_of_mem _ hu))]

theorem parseTokensAux_cons_command (cur : Option (Char × List (List Char)))
    (t : List Char) (ts : List (List Char)) (h : isCommandToken t = true) :
    parseTokensAux cur (t :: ts) =
      flushCommand cur ++ parseTokensAux (some (t.headD ' ', [])) ts := by
  rw [parseTokensAux.eq_def]
  simp [h]

theorem parseTokensAux_cons_arg (c : Char) (args : List (List Char)) (t : List Char)
    (ts : List (List Char)) (h : isCommandToken t = false) :
    parseTokensAux (some (c, args)) (t :: ts) = parseTokensAux (some (c, t :: args)) ts := by
  rw [parseTokensAux.eq_def]
  simp [h]

theorem parseTokensAux_args (argtoks : List (List Char))
    (h : ∀ t ∈ argtoks, isCommandToken t = false) :
    ∀ (c : Char) (args rest : List (List Char)),
      parseTokensAux (some (c, args)) (argtoks ++ rest) =
        parseTokensAux (some (c, argtoks.reverse ++ args)) rest := by
  induction argtoks with
  | nil => intro c args rest; simp
  | cons t ts ih =>
      intro c args rest
      rw [List.cons_append, parseTokensAux_cons_arg _ _ _ _ (h t (List.mem_cons_self _ _)),
        ih (fun u hu => h u (List.mem_cons_of_mem _ hu)) c (t :: args) rest]
      congr 2
      simp

theorem limitPathCommand_idem (p : ℕ) (c : PathCmd) :
    limitPathCommand p (limitPathCommand p c) = limitPathCommand p c := by
  cases c <;> simp [limitPathCommand, limitPrecision_idem]

theorem isMLA_limitPathCommand (p : ℕ) (c : PathCmd) :
    isMLA (limitPathCommand p c) = isMLA c := by
  cases c <;> rfl

theorem renderCommandTokens_no_space (p : ℕ) (c : PathCmd) (h : isMLA c = true) :
    ∀ t ∈ renderCommandTokens p c, ' ' ∉ t := by
  cases c with
  | other ch => simp [isMLA] at h
  | M x y =>
      intro t ht
      simp only [renderCommandTokens, List.mem_cons, List.not_mem_nil, or_false] at ht
      rcases ht with rfl | rfl | rfl
      · decide
      · exact space_not_mem_renderNum p x
      · exact space_not_mem_renderNum p y
  | L x y =>
      intro t ht
      simp only [renderCommandTokens, List.mem_cons, List.not_mem_nil, or_false] at ht
      rcases ht with rfl | rfl | rfl
      · decide
      · exact space_not_mem_renderNum p x
      · exact space_not_mem_renderNum p y
  | A rx ry rot laf swf x y =>
      intro t ht
      simp only [renderCommandTokens, List.mem_cons, List.not_mem_nil, or_false] at ht
      rcases ht with rfl | rfl | rfl | rfl | rfl | rfl | rfl | rfl
      · decide
      · exact space_not_mem_renderNum p rx
      · exact space_not_mem_renderNum p ry
      · exact space_not_mem_renderNum p rot
      · exact space_not_mem_renderNum p laf
      · exact space_not_mem_renderNum p swf
      · exact space_not_mem_renderNum p x
      · exact space_not_mem_renderNum p y

theorem renderCommandTokens_ne_nil (p : ℕ) (c : PathCmd) :
    renderCommandTokens p c ≠ [] := by
  cases c <;> simp [renderCommandTokens]

theorem isCommandToken_renderNum_list (p : ℕ) (qs : List ℚ) :
    ∀ t ∈ qs.map (renderNum p), isCommandToken t = false := by
  intro t ht
  obtain ⟨q, _, rfl⟩ := List.mem_map.mp ht
  exact isCommandToken_renderNum p q

theorem parseTokensAux_command_block (p : ℕ) (ch : Char) (hch : isAsciiLetter ch = true)
    (argqs : List ℚ) (rest : List (List Char)) (cur : Option (Char × List (List Char))) :
    parseTokensAux cur (([ch] :: argqs.map (renderNum p)) ++ rest) =
      flushCommand cur ++ parseTokensAux (some (ch, (argqs.map (renderNum p)).reverse)) rest := by
  rw [List.cons_append,
    parseTokensAux_cons_command _ _ _ (by simp [isCommandToken, hch]),
    parseTokensAux_args _ (isCommandToken_renderNum_list p argqs) _ [] rest,
    List.append_nil]
  rfl

theorem parseTokensAux_render (p : ℕ) : ∀ cmds : List PathCmd,
    (∀ c ∈ cmds, isMLA c = true) → (∀ c ∈ cmds, limitPathCommand p c = c) →
    ∀ cur, parseTokensAux cur ((cmds.map (renderCommandTokens p)).flatten) =
      flushCommand cur ++ cmds := by
  intro cmds
  induction cmds with
  | nil => intro _ _ cur; simp [parseTokensAux]
  | cons c cs ih =>
      intro hml hlim cur
      have hmlc := hml c (List.mem_cons_self _ _)
      have hlimc := hlim c (List.mem_cons_self _ _)
      have ihcs := ih (fun u hu => hml u (List.mem_cons_of_mem _ hu))
        (fun u hu => hlim u (List.mem_cons_of_mem _ hu))
      cases c with
      | other ch => simp [isMLA] at hmlc
      | M x y =>
          obtain ⟨hx, hy⟩ : limitPrecision p x = x ∧ limitPrecision p y = y := by
            simpa only [limitPathCommand, PathCmd.M.injEq] using hlimc
          simp only [List.map_cons, List.flatten_cons]
          rw [show renderCommandTokens p (.M x y) =
              [('M' : Char)] :: [x, y].map (renderNum p) from rfl]
          rw [parseTokensAux_command_block p 'M' (by decide) [x, y] _ cur, ihcs]
          simp only [List.map_cons, List.map_nil, List.reverse_cons, List.reverse_nil,
            List.nil_append, flushCommand, mkCommand, List.getD_cons_zero, List.getD_cons_succ,
            List.singleton_append, List.cons_append, List.append_assoc]
          rw [parseNumD_renderNum hx, parseNumD_renderNum hy]
      | L x y =>
          obtain ⟨hx, hy⟩ : limitPrecision p x = x ∧ limitPrecision p y = y := by
            simpa only [limitPathCommand, PathCmd.L.injEq] using hlimc
          simp only [List.map_cons, List.flatten_cons]
          rw [show renderCommandTokens p (.L x y) =
              [('L' : Char)] :: [x, y].map (renderNum p) from rfl]
          rw [parseTokensAux_command_block p 'L' (by decide) [x, y] _ cur, ihcs]
          simp only [List.map_cons, List.map_nil, List.reverse_cons, List.reverse_nil,
            List.nil_append, flushCommand, mkCommand, List.getD_cons_zero, List.getD_cons_succ,
            List.singleton_append, List.cons_append, List.append_assoc]
          rw [parseNumD_renderNum hx, parseNumD_renderNum hy]
      | A rx ry rot laf swf x y =>
          obtain ⟨h1, h2, h3, h4, h5, h6, h7⟩ :
              limitPrecision p rx = rx ∧ limitPrecision p ry = ry ∧
              limitPrecision p rot = rot ∧ limitPrecision p laf = laf ∧
              limitPrecision p swf = swf ∧ limitPrecision p x = x ∧
              limitPrecision p y = y := by
            simpa only [limitPathCommand, PathCmd.A.injEq] using hlimc
          simp only [List.map_cons, List.flatten_cons]
          rw [show renderCommandTokens p (.A rx ry rot laf swf x y) =
              [('A' : Char)] :: [rx, ry, rot, laf, swf, x, y].map (renderNum p) from rfl]
          rw [parseTokensAux_command_block p 'A' (by decide) [rx, ry, rot, laf, swf, x, y] _ cur,
            ihcs]
          simp only [List.map_cons, List.map_nil, List.reverse_cons, List.reverse_nil,
            List.nil_append, flushCommand, mkCommand, List.getD_cons_zero, List.getD_cons_succ,
            List.singleton_append, List.cons_append, List.append_assoc]
          rw [parseNumD_renderNum h1, parseNumD_renderNum h2, parseNumD_renderNum h3,
            parseNumD_renderNum h4, parseNumD_renderNum h5, parseNumD_renderNum h6,
            parseNumD_renderNum h7]

theorem parsePathData_renderPathData (p : ℕ) (cmds : List PathCmd)
    (hml : ∀ c ∈ cmds, isMLA c = true) (hlim : ∀ c ∈ cmds, limitPathCommand p c = c) :
    parsePathData (renderPathData p cmds) = cmds := by
  rw [parsePathData, renderPathData]
  show parseTokensAux none
    (splitSpace (joinSpace ((cmds.map (renderCommandTokens p)).flatten))) = cmds
  cases cmds with
  | nil => rfl
  | cons c cs =>
      have hnospace : ∀ t ∈ ((c :: cs).map (renderCommandTokens p)).flatten, ' ' ∉ t := by
        intro t ht
        obtain ⟨l, hl, htl⟩ := List.mem_flatten.mp ht
        obtain ⟨cmd, hcmd, rfl⟩ := List.mem_map.mp hl
        exact renderCommandTokens_no_space p cmd (hml cmd hcmd) t htl
      have hne : ((c :: cs).map (renderCommandTokens p)).flatten ≠ [] := by
        simp only [List.map_cons, List.flatten_cons]
        intro hcon
        exact renderCommandTokens_ne_nil p c (List.append_eq_nil.mp hcon).1
      rw [splitSpace_joinSpace _ hne hnospace]
      have := parseTokensAux_render p (c :: cs) hml hlim none
      simpa using this

/-! ## Lemmas: the transform pass of path normalization -/

theorem isMLA_transformPathCommand {context : TransformContext} {c c' : PathCmd}
    (h : transformPathCommand context c = .ok c') : isMLA c' = true := by
  cases c with
  | other ch => simp [transformPathCommand] at h
  | M x y =>
      simp only [transformPathCommand, Except.ok.injEq] at h
      rw [← h]
      rfl
  | L x y =>
      simp only [transformPathCommand, Except.ok.injEq] at h
      rw [← h]
      rfl
  | A rx ry rot laf swf x y =>
      simp only [transformPathCommand] at h
      split at h <;> (simp only [Except.ok.injEq] at h; rw [← h]; rfl)

theorem transformPathCommand_ok_of_isMLA {context : TransformContext} {c : PathCmd}
    (h : isMLA c = true) : ∃ c', transformPathCommand context c = .ok c' := by
  cases c with
  | other ch => simp [isMLA] at h
  | M x y => exact ⟨_, rfl⟩
  | L x y => exact ⟨_, rfl⟩
  | A rx ry rot laf swf x y =>
      by_cases hneg : context.scale.1 * context.scale.2 < 0
      · exact ⟨_, by rw [transformPathCommand, if_pos hneg]⟩
      · exact ⟨_, by rw [transformPathCommand, if_neg hneg]⟩

theorem mapM_transformPathCommand_ML (context : TransformContext) : ∀ cmds : List PathCmd,
    (∀ c ∈ cmds, isML c = true) →
    cmds.mapM (transformPathCommand context) = .ok (cmds.map (shiftML context)) := by
  intro cmds
  induction cmds with
  | nil => intro _; rfl
  | cons c cs ih =>
      intro h
      have hc := h c (List.mem_cons_self _ _)
      rw [List.mapM_cons, ih (fun u hu => h u (List.mem_cons_of_mem _ hu))]
      cases c with
      | M x y => rfl
      | L x y => rfl
      | A rx ry rot laf swf x y => simp [isML] at hc
      | other ch => simp [isML] at hc

theorem transformPathCommand_id {c : PathCmd} (h : isMLA c = true) :
    transformPathCommand ⟨(0, 0), (1, 1)⟩ c = .ok c := by
  cases c with
  | other ch => simp [isMLA] at h
  | M x y => simp [transformPathCommand]
  | L x y => simp [transformPathCommand]
  | A rx ry rot laf swf x y =>
      rw [transformPathCommand]
      rw [if_neg (by norm_num)]
      simp

theorem mapM_transformPathCommand_id : ∀ cmds : List PathCmd,
    (∀ c ∈ cmds, isMLA c = true) →
    cmds.mapM (transformPathCommand ⟨(0, 0), (1, 1)⟩) = .ok cmds := by
  intro cmds
  induction cmds with
  | nil => intro _; rfl
  | cons c cs ih =>
      intro h
      rw [List.mapM_cons, transformPathCommand_id (h c (List.mem_cons_self _ _)),
        ih (fun u hu => h u (List.mem_cons_of_mem _ hu))]
      rfl

theorem mapM_transformPathCommand_err (context : TransformContext) : ∀ cmds : List PathCmd,
    (∃ ch, PathCmd.other ch ∈ cmds) →
    ∃ ch, cmds.mapM (transformPathCommand context) = .error (.unsupportedPathCommand ch) := by
  intro cmds
  induction cmds with
  | nil =>
      intro h
      obtain ⟨ch, hch⟩ := h
      simp at hch
  | cons c cs ih =>
      intro h
      obtain ⟨ch, hch⟩ := h
      cases c with
      | other c0 =>
          refine ⟨c0, ?_⟩
          rw [List.mapM_cons]
          rfl
      | M x y =>
          have hcs : ∃ ch, PathCmd.other ch ∈ cs := by
            refine ⟨ch, ?_⟩
            simp only [List.mem_cons] at hch
            rcases hch with hcon | hm
            · exact absurd hcon (by simp)
            · exact hm
          obtain ⟨c1, hc1⟩ := ih hcs
          refine ⟨c1, ?_⟩
          rw [List.mapM_cons, hc1]
          rfl
      | L x y =>
          have hcs : ∃ ch, PathCmd.other ch ∈ cs := by
            refine ⟨ch, ?_⟩
            simp only [List.mem_cons] at hch
            rcases hch with hcon | hm
            · exact absurd hcon (by simp)
            · exact hm
          obtain ⟨c1, hc1⟩ := ih hcs
          refine ⟨c1, ?_⟩
          rw [List.mapM_cons, hc1]
          rfl
      | A rx ry rot laf swf x y =>
          have hcs : ∃ ch, PathCmd.other ch ∈ cs := by
            refine ⟨ch, ?_⟩
            simp only [List.mem_cons] at hch
            rcases hch with hcon | hm
            · exact absurd hcon (by simp)
            · exact hm
          obtain ⟨c1, hc1⟩ := ih hcs
          refine ⟨c1, ?_⟩
          obtain ⟨c', hc'⟩ :=
            @transformPathCommand_ok_of_isMLA context (.A rx ry rot laf swf x y) rfl
          rw [List.mapM_cons, hc', hc1]
          rfl

theorem normalizePathData_eq_ok {data : String} {context : TransformContext} {p : ℕ}
    {ts : List PathCmd} (h : (parsePathData data).mapM (transformPathCommand context) = .ok ts) :
    normalizePathData data context p = .ok (renderPathData p (ts.map (limitPathCommand p))) := by
  unfold normalizePathData
  rw [h]
  rfl

theorem normalizePathData_eq_err {data : String} {context : TransformContext} {p : ℕ}
    {e : Err} (h : (parsePathData data).mapM (transformPathCommand context) = .error e) :
    normalizePathData data context p = .error e := by
  unfold normalizePathData
  rw [h]
  rfl

theorem isMLA_of_mem_mapM (context : TransformContext) : ∀ cmds ts : List PathCmd,
    cmds.mapM (transformPathCommand context) = .ok ts → ∀ c ∈ ts, isMLA c = true := by
  intro cmds
  induction cmds with
  | nil =>
      intro ts h c hc
      have h2 : (Except.ok ([] : List PathCmd) : Except Err (List PathCmd)) = .ok ts := h
      obtain rfl : ([] : List PathCmd) = ts := by injection h2
      simp at hc
  | cons a as ih =>
      intro ts h c hc
      rw [List.mapM_cons] at h
      cases ha : transformPathCommand context a with
      | error e =>
          rw [ha] at h
          have h2 : (Except.error e : Except Err (List PathCmd)) = .ok ts := h
          exact Except.noConfusion h2
      | ok b =>
          rw [ha] at h
          cases hb : as.mapM (transformPathCommand context) with
          | error e =>
              rw [hb] at h
              have h2 : (Except.error e : Except Err (List PathCmd)) = .ok ts := h
              exact Except.noConfusion h2
          | ok bs =>
              rw [hb] at h
              have h2 : (Except.ok (b :: bs) : Except Err (List PathCmd)) = .ok ts := h
              obtain rfl : b :: bs = ts := by injection h2
              simp only [List.mem_cons] at hc
              rcases hc with rfl | hc
              · exact isMLA_transformPathCommand ha
              · exact ih bs hb c hc

theorem listMap_id_of_mem {α : Type} {f : α → α} :
    ∀ l : List α, (∀ a ∈ l, f a = a) → l.map f = l := by
  intro l
  induction l with
  | nil => intro _; rfl
  | cons a as ih =>
      intro h
      rw [List.map_cons, h a (List.mem_cons_self _ _),
        ih (fun u hu => h u (List.mem_cons_of_mem _ hu))]

/-- C7: path normalization is idempotent with respect to precision
limiting: re-normalizing an output of `normalizePathData` under the
identity context (translate `(0,0)`, scale `(1,1)`) at the same
precision returns the byte-identical string. -/
theorem C7_normalizePathData_idempotent {data out : String} {context : TransformContext}
    {p : ℕ} (h : normalizePathData data context p = .ok out) :
    normalizePathData out ⟨(0, 0), (1, 1)⟩ p = .ok out := by
  cases hm : (parsePathData data).mapM (transformPathCommand context) with
  | error e =>
      rw [normalizePathData_eq_err hm] at h
      exact Except.noConfusion h
  | ok ts =>
      rw [normalizePathData_eq_ok hm] at h
      obtain rfl : renderPathData p (ts.map (limitPathCommand p)) = out := by injection h
      have hml : ∀ c ∈ ts.map (limitPathCommand p), isMLA c = true := by
        intro c hc
        obtain ⟨c0, hc0, rfl⟩ := List.mem_map.mp hc
        rw [isMLA_limitPathCommand]
        exact isMLA_of_mem_mapM context _ _ hm c0 hc0
      have hlim : ∀ c ∈ ts.map (limitPathCommand p), limitPathCommand p c = c := by
        intro c hc
        obtain ⟨c0, hc0, rfl⟩ := List.mem_map.mp hc
        exact limitPathCommand_idem p c0
      have hparse : parsePathData (renderPathData p (ts.map (limitPathCommand p))) =
          ts.map (limitPathCommand p) := parsePathData_renderPathData p _ hml hlim
      have hid : (ts.map (limitPathCommand p)).mapM
          (transformPathCommand ⟨(0, 0), (1, 1)⟩) = .ok (ts.map (limitPathCommand p)) :=
        mapM_transformPathCommand_id _ hml
      rw [normalizePathData_eq_ok (by rw [hparse]; exact hid)]
      rw [listMap_id_of_mem _ hlim]

/-- Witness for C7 at a concrete input: `M 1.234567 2` normalizes under
the identity context at precision 5 to `M 1.23457 2`, and re-normalizing
that output returns it unchanged. -/
theorem C7_witness :
    normalizePathData "M 1.234567 2" ⟨(0, 0), (1, 1)⟩ 5 = .ok "M 1.23457 2" ∧
    normalizePathData "M 1.23457 2" ⟨(0, 0), (1, 1)⟩ 5 = .ok "M 1.23457 2" := by
  constructor
  · decide
  · exact C7_normalizePathData_idempotent
      (show normalizePathData "M 1.234567 2" ⟨(0, 0), (1, 1)⟩ 5 = .ok "M 1.23457 2" by decide)

/-- C2: the walker applies transform tokens left to right to the running
context; a `translate(dx, dy)` updates the translation to
`(s.x*dx + t.x, s.y*dy + t.y)` using the scale current at that moment, a
`scale(sx, sy)` updates the scale to `(s.x*sx, s.y*sy)`; in particular
`translate(10,0) scale(2,1)` followed by a nested `translate(5,0)`
yields translation `(20, 0)` (the nested offset 5 is multiplied by the
scale 2 in effect at that point), scale `(2, 1)`. -/
theorem C2_transform_composition :
    (∀ (context : TransformContext) (dx dy : ℚ),
      applyTransformToken context ⟨"translate", [dx, dy]⟩ =
        .ok { translate := (context.scale.1 * dx + context.translate.1,
                            context.scale.2 * dy + context.translate.2),
              scale := context.scale }) ∧
    (∀ (context : TransformContext) (sx sy : ℚ),
      applyTransformToken context ⟨"scale", [sx, sy]⟩ =
        .ok { translate := context.translate,
              scale := (context.scale.1 * sx, context.scale.2 * sy) }) ∧
    (∀ (context : TransformContext) (tok : TransformToken) (toks : List TransformToken),
      applyTransformTokens context (tok :: toks) =
        (applyTransformToken context tok) >>= fun c => applyTransformTokens c toks) ∧
    ((applyTransformTokens ⟨(0, 0), (1, 1)⟩
        [⟨"translate", [10, 0]⟩, ⟨"scale", [2, 1]⟩]) >>= fun c =>
          applyTransformTokens c [⟨"translate", [5, 0]⟩]) =
      .ok ⟨(20, 0), (2, 1)⟩ := by
  refine ⟨?_, ?_, ?_, ?_⟩
  · intro context dx dy
    rfl
  · intro context sx sy
    rfl
  · intro context tok toks
    rw [applyTransformTokens, List.foldlM_cons]
    rfl
  · decide

/-- C3: an arc command's seven arguments are rewritten with
`rx * scale.x`, `ry * scale.y` and the endpoint scaled and translated;
when `scale.x * scale.y` is negative the rotation is negated and the
sweep flag toggled (1 becomes 0, 0 becomes 1), and when it is
non-negative rotation and sweep flag are left as they are. -/
theorem C3_arc_normalization (context : TransformContext) (rx ry rot laf swf x y : ℚ) :
    (context.scale.1 * context.scale.2 < 0 →
      transformPathCommand context (.A rx ry rot laf swf x y) =
        .ok (.A (rx * context.scale.1) (ry * context.scale.2) (-rot) laf
              (if swf = 1 then 0 else 1)
              (x * context.scale.1 + context.translate.1)
              (y * context.scale.2 + context.translate.2))) ∧
    (0 ≤ context.scale.1 * context.scale.2 →
      transformPathCommand context (.A rx ry rot laf swf x y) =
        .ok (.A (rx * context.scale.1) (ry * context.scale.2) rot laf swf
              (x * context.scale.1 + context.translate.1)
              (y * context.scale.2 + context.translate.2))) := by
  constructor
  · intro h
    rw [transformPathCommand, if_pos h, mul_neg_one]
  · intro h
    rw [transformPathCommand, if_neg (not_lt.mpr h)]

/-- Witness for C3: under scale `(-1, 1)` the arc `A 1 2 30 1 0 5 6`
becomes `A -1 2 -30 1 1 -5 6` (rotation negated, sweep toggled), and
under scale `(1, 1)` it is unchanged. -/
theorem C3_witness :
    transformPathCommand ⟨(0, 0), (-1, 1)⟩ (.A 1 2 30 1 0 5 6) =
      .ok (.A (-1) 2 (-30) 1 1 (-5) 6) ∧
    transformPathCommand ⟨(0, 0), (1, 1)⟩ (.A 1 2 30 1 0 5 6) =
      .ok (.A 1 2 30 1 0 5 6) := by
  constructor
  · rw [(C3_arc_normalization ⟨(0, 0), (-1, 1)⟩ 1 2 30 1 0 5 6).1 (by norm_num)]
    decide
  · rw [(C3_arc_normalization ⟨(0, 0), (1, 1)⟩ 1 2 30 1 0 5 6).2 (by norm_num)]
    decide

/-! ## Lemmas: shape of rendered numbers (for the precision claim) -/

theorem digit_ne_dot {c : Char} (h : isDigitChar c = true) : c ≠ '.' := by
  intro hcon
  subst hcon
  exact absurd h (by decide)

theorem digitChar_ne_zero {d : ℕ} (h1 : d < 10) (h2 : d ≠ 0) : digitChar d ≠ '0' := by
  interval_cases d
  · exact absurd rfl h2
  all_goals decide

theorem dropWhile_ne_dot_append (l1 l2 : List Char) (h : ∀ c ∈ l1, c ≠ '.') :
    (l1 ++ l2).dropWhile (fun c => c != '.') = l2.dropWhile (fun c => c != '.') := by
  induction l1 with
  | nil => rfl
  | cons c cs ih =>
      rw [List.cons_append, List.dropWhile_cons,
        if_pos (by simp [h c (List.mem_cons_self _ _)]),
        ih (fun u hu => h u (List.mem_cons_of_mem _ hu))]

theorem dropWhile_ne_dot_all (l : List Char) (h : ∀ c ∈ l, c ≠ '.') :
    l.dropWhile (fun c => c != '.') = [] := by
  have := dropWhile_ne_dot_append l [] h
  simpa using this

theorem fracCount_cons_ne_dot {c : Char} {l : List Char} (h : c ≠ '.') :
    fracCount (c :: l) = fracCount l := by
  rw [fracCount, fracCount, List.dropWhile_cons, if_pos (by simp [h])]

theorem fracCount_renderFixedBody (n p : ℕ) :
    fracCount (renderFixedBody n p) = (stripZeros n p).2 := by
  have hno : ∀ c ∈ renderNat ((stripZeros n p).1 / 10 ^ (stripZeros n p).2), c ≠ '.' :=
    fun c hc => digit_ne_dot (renderNat_digits _ c hc)
  rw [renderFixedBody_eq_append]
  by_cases he : (stripZeros n p).2 = 0
  · rw [if_pos he, List.append_nil, fracCount, dropWhile_ne_dot_all _ hno]
    simp [he]
  · rw [if_neg he, fracCount, dropWhile_ne_dot_append _ _ hno]
    rw [show (('.' :: renderFrac (stripZeros n p).1 (stripZeros n p).2).dropWhile
        (fun c => c != '.')) = '.' :: renderFrac (stripZeros n p).1 (stripZeros n p).2 from by
      rw [List.dropWhile_cons, if_neg (by simp)]]
    rw [List.drop_one, List.tail_cons, length_renderFrac]

theorem fracCount_renderFixed (m : ℤ) (p : ℕ) :
    fracCount (renderFixed m p) = (stripZeros m.natAbs p).2 := by
  rw [renderFixed]
  by_cases hm : m < 0
  · rw [if_pos hm, fracCount_cons_ne_dot (by decide), fracCount_renderFixedBody]
  · rw [if_neg hm, fracCount_renderFixedBody]

theorem renderFrac_ne_nil (n e : ℕ) (he : e ≠ 0) : renderFrac n e ≠ [] := by
  intro hcon
  have := length_renderFrac n e
  rw [hcon] at this
  exact he this.symm

theorem getLast?_renderFixedBody (n p : ℕ) :
    ∃ c, (renderFixedBody n p).getLast? = some c ∧ isDigitChar c = true ∧
      ((stripZeros n p).2 ≠ 0 → c ≠ '0') := by
  rw [renderFixedBody_eq_append]
  by_cases he : (stripZeros n p).2 = 0
  · rw [if_pos he, List.append_nil]
    have hne := renderNat_ne_nil ((stripZeros n p).1 / 10 ^ (stripZeros n p).2)
    exact ⟨(renderNat _).getLast hne, List.getLast?_eq_getLast _ hne,
      renderNat_digits _ _ (List.getLast_mem hne), fun hcon => absurd he hcon⟩
  · rw [if_neg he]
    obtain ⟨e', he'⟩ : ∃ e', (stripZeros n p).2 = e' + 1 :=
      ⟨(stripZeros n p).2 - 1, by omega⟩
    have hmod : (stripZeros n p).1 % 10 ≠ 0 := (stripZeros_spec p n).2.2 he
    have hlast : (renderFrac (stripZeros n p).1 (stripZeros n p).2).getLast? =
        some (digitChar ((stripZeros n p).1 % 10)) := by
      rw [renderFrac, List.getLast?_reverse, List.head?_map, he']
      rfl
    refine ⟨digitChar ((stripZeros n p).1 % 10), ?_, isDigitChar_digitChar (by omega), ?_⟩
    · rw [List.getLast?_append,
        show ('.' :: renderFrac (stripZeros n p).1 (stripZeros n p).2) =
          ['.'] ++ renderFrac (stripZeros n p).1 (stripZeros n p).2 from rfl,
        List.getLast?_append, hlast]
      rfl
    · intro _
      exact digitChar_ne_zero (by omega) hmod

theorem getLast?_renderFixed (m : ℤ) (p : ℕ) :
    ∃ c, (renderFixed m p).getLast? = some c ∧ isDigitChar c = true ∧
      ((stripZeros m.natAbs p).2 ≠ 0 → c ≠ '0') := by
  obtain ⟨c, hc1, hc2, hc3⟩ := getLast?_renderFixedBody m.natAbs p
  rw [renderFixed]
  by_cases hm : m < 0
  · rw [if_pos hm]
    refine ⟨c, ?_, hc2, hc3⟩
    rw [show ('-' :: renderFixedBody m.natAbs p) = ['-'] ++ renderFixedBody m.natAbs p from rfl,
      List.getLast?_append, hc1]
    rfl
  · rw [if_neg hm]
    exact ⟨c, hc1, hc2, hc3⟩

theorem limitPrecision_den_minimal (p : ℕ) (x : ℚ) :
    ∀ e, e < fracCount (renderNum p (limitPrecision p x)) →
      (limitPrecision p x * 10 ^ e).den ≠ 1 := by
  intro e he hden
  rw [renderNum_limitPrecision, fracCount_renderFixed] at he
  obtain ⟨hle, hval, hlast⟩ := stripZeros_spec p (round (x * 10 ^ p)).natAbs
  have hn10 : (stripZeros (round (x * 10 ^ p)).natAbs p).1 % 10 ≠ 0 := hlast (by omega)
  have hz := (Rat.den_eq_one_iff _).mp hden
  have hq : ((round (x * 10 ^ p) : ℤ) : ℚ) * 10 ^ e =
      ((limitPrecision p x * 10 ^ e).num : ℚ) * 10 ^ p := by
    calc ((round (x * 10 ^ p) : ℤ) : ℚ) * 10 ^ e
        = (limitPrecision p x * 10 ^ p) * 10 ^ e := by rw [limitPrecision_mul_pow]
      _ = (limitPrecision p x * 10 ^ e) * 10 ^ p := by ring
      _ = ((limitPrecision p x * 10 ^ e).num : ℚ) * 10 ^ p := by rw [hz]
  have hqz : round (x * 10 ^ p) * 10 ^ e = (limitPrecision p x * 10 ^ e).num * 10 ^ p := by
    exact_mod_cast hq
  have hna : (round (x * 10 ^ p)).natAbs * 10 ^ e =
      (limitPrecision p x * 10 ^ e).num.natAbs * 10 ^ p := by
    have h0 := congrArg Int.natAbs hqz
    simpa [Int.natAbs_mul, Int.natAbs_pow] using h0
  rw [hval] at hna
  have hp : (10 : ℕ) ^ p =
      10 ^ (p - (stripZeros (round (x * 10 ^ p)).natAbs p).2) *
        10 ^ (stripZeros (round (x * 10 ^ p)).natAbs p).2 := by
    rw [← pow_add]
    congr 1
    omega
  rw [hp] at hna
  have hpe0 : 0 < (10 : ℕ) ^ (p - (stripZeros (round (x * 10 ^ p)).natAbs p).2) :=
    pow_pos (by norm_num) _
  have h2 : (stripZeros (round (x * 10 ^ p)).natAbs p).1 * 10 ^ e =
      (limitPrecision p x * 10 ^ e).num.natAbs *
        10 ^ (stripZeros (round (x * 10 ^ p)).natAbs p).2 := by
    refine Nat.eq_of_mul_eq_mul_right hpe0 ?_
    calc (stripZeros (round (x * 10 ^ p)).natAbs p).1 * 10 ^ e *
          10 ^ (p - (stripZeros (round (x * 10 ^ p)).natAbs p).2)
        = (stripZeros (round (x * 10 ^ p)).natAbs p).1 *
            10 ^ (p - (stripZeros (round (x * 10 ^ p)).natAbs p).2) * 10 ^ e := by ring
      _ = (limitPrecision p x * 10 ^ e).num.natAbs *
            (10 ^ (p - (stripZeros (round (x * 10 ^ p)).natAbs p).2) *
              10 ^ (stripZeros (round (x * 10 ^ p)).natAbs p).2) := hna
      _ = (limitPrecision p x * 10 ^ e).num.natAbs *
            10 ^ (stripZeros (round (x * 10 ^ p)).natAbs p).2 *
            10 ^ (p - (stripZeros (round (x * 10 ^ p)).natAbs p).2) := by ring
  obtain ⟨k, hk⟩ : ∃ k, (stripZeros (round (x * 10 ^ p)).natAbs p).2 = e + (k + 1) :=
    ⟨(stripZeros (round (x * 10 ^ p)).natAbs p).2 - e - 1, by omega⟩
  rw [hk, pow_add] at h2
  have hpe : 0 < (10 : ℕ) ^ e := pow_pos (by norm_num) _
  have h3 : (stripZeros (round (x * 10 ^ p)).natAbs p).1 =
      (limitPrecision p x * 10 ^ e).num.natAbs * 10 ^ (k + 1) := by
    refine Nat.eq_of_mul_eq_mul_right hpe ?_
    calc (stripZeros (round (x * 10 ^ p)).natAbs p).1 * 10 ^ e = _ := h2
      _ = (limitPrecision p x * 10 ^ e).num.natAbs * 10 ^ (k + 1) * 10 ^ e := by ring
  have hdvd : (10 : ℕ) ∣ (stripZeros (round (x * 10 ^ p)).natAbs p).1 := by
    rw [h3, pow_succ]
    exact ⟨(limitPrecision p x * 10 ^ e).num.natAbs * 10 ^ k, by ring⟩
  omega

/-- C4: every number produced by the precision-limiting step
(`Number(Number(x).toFixed(p))`, modelled by rendering the rounded
value) has at most `p` fractional digits, parses back to exactly the
rounded value (round-trippable), consists only of digit, sign and point
characters (so never scientific notation), has no trailing zero in its
fractional part and does not end with the fractional point, and uses the
minimal number of fractional digits able to represent the value
(shortest form). -/
theorem C4_precision_rendering (p : ℕ) (x : ℚ) :
    parseNum (renderNum p (limitPrecision p x)) = some (limitPrecision p x) ∧
    fracCount (renderNum p (limitPrecision p x)) ≤ p ∧
    (∀ c ∈ renderNum p (limitPrecision p x), isDigitChar c = true ∨ c = '-' ∨ c = '.') ∧
    (fracCount (renderNum p (limitPrecision p x)) ≠ 0 →
      (renderNum p (limitPrecision p x)).getLast? ≠ some '0') ∧
    (renderNum p (limitPrecision p x)).getLast? ≠ some '.' ∧
    (∀ e, e < fracCount (renderNum p (limitPrecision p x)) →
      (limitPrecision p x * 10 ^ e).den ≠ 1) := by
  obtain ⟨c, hc1, hc2, hc3⟩ := getLast?_renderFixed (round (x * 10 ^ p)) p
  refine ⟨parseNum_renderNum_limit p x, ?_, ?_, ?_, ?_, limitPrecision_den_minimal p x⟩
  · rw [renderNum_limitPrecision, fracCount_renderFixed]
    exact (stripZeros_spec p (round (x * 10 ^ p)).natAbs).1
  · rw [renderNum_limitPrecision]
    exact mem_renderFixed _ _
  · intro hf
    rw [renderNum_limitPrecision, fracCount_renderFixed] at hf
    rw [renderNum_limitPrecision, hc1]
    intro hcon
    have : c = '0' := by injection hcon
    exact hc3 hf this
  · rw [renderNum_limitPrecision, hc1]
    intro hcon
    have : c = '.' := by injection hcon
    exact digit_ne_dot hc2 this

/-- Witness for C4 at `p = 2`, `x = 3.45`: the rendered number
round-trips, its fractional part is nonempty with no trailing zero, and
one fractional digit would not suffice. -/
theorem C4_witness :
    parseNum (renderNum 2 (limitPrecision 2 (345 / 100))) =
      some (limitPrecision 2 (345 / 100)) ∧
    (renderNum 2 (limitPrecision 2 (345 / 100))).getLast? ≠ some '0' ∧
    (limitPrecision 2 (345 / 100) * 10 ^ 1).den ≠ 1 :=
  ⟨(C4_precision_rendering 2 (345 / 100)).1,
   (C4_precision_rendering 2 (345 / 100)).2.2.2.1 (by decide),
   (C4_precision_rendering 2 (345 / 100)).2.2.2.2.2 1 (by decide)⟩

/-! ## Lemmas and claims: the tree walker -/

/-- A container node (kind neither `path` nor an unsupported shape)
applies its transform and recurses, contributing no geometry. -/
theorem extractPaths_container_eq (name : String) (style : Option String)
    (transform : List TransformToken) (viewBox d : Option String) (children : List Node)
    (context : TransformContext) (precision : ℕ)
    (hstyle : styleHasTransform style = false)
    (hname : name ∉ ["rect", "circle", "ellipse", "line", "polyline", "path"]) :
    extractPaths (.mk name style transform viewBox d children) context precision =
      (applyTransformTokens context transform) >>= fun c =>
        extractPathsList children c precision := by
  have h1 : ¬(name = "rect" ∨ name = "circle" ∨ name = "ellipse" ∨ name = "line" ∨
      name = "polyline") := by
    simp only [List.mem_cons, List.not_mem_nil, or_false, not_or] at hname
    tauto
  have h2 : ¬name = "path" := by
    simp only [List.mem_cons, List.not_mem_nil, or_false, not_or] at hname
    tauto
  rw [extractPaths]
  rw [hstyle]
  simp only [Bool.false_eq_true, if_false]
  cases happly : applyTransformTokens context transform with
  | error e => rfl
  | ok context1 =>
      simp only [if_neg h1, if_neg h2]
      rw [show ((Except.ok context1 : Except Err TransformContext) >>= fun c =>
          extractPathsList children c precision) =
          extractPathsList children context1 precision from rfl]
      cases hlist : extractPathsList children context1 precision with
      | error e => rfl
      | ok rest => simp

/-- C9: a node whose kind is neither `path` nor one of the unsupported
shape kinds (for example a group) raises no error for its kind: the
walker folds its transform attribute into the running context,
contributes no geometry of its own, and recurses into the children with
the updated context. -/
theorem C9_group_traversal (name : String) (style : Option String)
    (transform : List TransformToken) (viewBox d : Option String) (children : List Node)
    (context : TransformContext) (precision : ℕ)
    (hstyle : styleHasTransform style = false)
    (hname : name ∉ ["rect", "circle", "ellipse", "line", "polyline", "path"]) :
    extractPaths (.mk name style transform viewBox d children) context precision =
      (applyTransformTokens context transform) >>= fun c =>
        extractPathsList children c precision :=
  extractPaths_container_eq name style transform viewBox d children context precision
    hstyle hname

/-- Witness for C9: a `g` element with a translate transform and one
path child is processed without error, by folding the transform and
recursing. -/
theorem C9_witness :
    extractPaths (.mk "g" none [⟨"translate", [3, 4]⟩] none none
        [.mk "path" none [] none (some "M 1 2") []]) ⟨(0, 0), (1, 1)⟩ 5 =
      (applyTransformTokens ⟨(0, 0), (1, 1)⟩ [⟨"translate", [3, 4]⟩]) >>= fun c =>
        extractPathsList [.mk "path" none [] none (some "M 1 2") []] c 5 :=
  C9_group_traversal "g" none [⟨"translate", [3, 4]⟩] none none
    [.mk "path" none [] none (some "M 1 2") []] ⟨(0, 0), (1, 1)⟩ 5 (by decide) (by decide)

/-- C10: a `path` element whose `d` attribute is absent or the empty
string raises no error and appends nothing to the collected paths;
traversal continues into its children with the updated context. -/
theorem C10_empty_path_data (style : Option String) (transform : List TransformToken)
    (viewBox d : Option String) (children : List Node)
    (context : TransformContext) (precision : ℕ)
    (hstyle : styleHasTransform style = false)
    (hd : d = none ∨ d = some "") :
    extractPaths (.mk "path" style transform viewBox d children) context precision =
      (applyTransformTokens context transform) >>= fun c =>
        extractPathsList children c precision := by
  rw [extractPaths]
  rw [hstyle]
  simp only [Bool.false_eq_true, if_false]
  cases happly : applyTransformTokens context transform with
  | error e => rfl
  | ok context1 =>
      have h1 : ¬(("path" : String) = "rect" ∨ ("path" : String) = "circle" ∨
          ("path" : String) = "ellipse" ∨ ("path" : String) = "line" ∨
          ("path" : String) = "polyline") := by decide
      simp only [if_neg h1, if_pos rfl]
      rw [show ((Except.ok context1 : Except Err TransformContext) >>= fun c =>
          extractPathsList children c precision) =
          extractPathsList children context1 precision from rfl]
      rcases hd with rfl | rfl
      · cases hlist : extractPathsList children context1 precision with
        | error e => rfl
        | ok rest => simp
      · simp only [if_pos rfl]
        cases hlist : extractPathsList children context1 precision with
        | error e => rfl
        | ok rest => simp

/-- Witness for C10: a path with `d=""` and a path child contributes
nothing itself and recursion continues into the child. -/
theorem C10_witness :
    extractPaths (.mk "path" none [] none (some "")
        [.mk "path" none [] none (some "M 1 2") []]) ⟨(0, 0), (1, 1)⟩ 5 =
      (applyTransformTokens ⟨(0, 0), (1, 1)⟩ []) >>= fun c =>
        extractPathsList [.mk "path" none [] none (some "M 1 2") []] c 5 :=
  C10_empty_path_data none [] none (some "")
    [.mk "path" none [] none (some "M 1 2") []] ⟨(0, 0), (1, 1)⟩ 5 (by decide) (Or.inr rfl)

/-- C5: the four error conditions.  (1) With a drawing root found whose
`viewBox` attribute is absent, the conversion fails with
`MissingViewboxError`.  (2) A `rect`/`circle`/`ellipse`/`line`/`polyline`
element (with no style transform and a well-formed transform attribute)
fails with `UnsupportedElementError`.  (3) A transform attribute
containing a `rotate(...)` token (after a prefix of valid tokens) fails
with `UnsupportedTransformError`.  (4) A path data string containing a
`C` command fails with `UnsupportedPathCommandError`. -/
theorem C5_error_conditions :
    (∀ (input : Node) (options : Options) (root : Node),
      findRoot input = some root → root.viewBox = none →
      sketchToIcon input options = .error .missingViewbox) ∧
    (∀ (name : String) (style : Option String) (transform : List TransformToken)
        (viewBox d : Option String) (children : List Node)
        (context context1 : TransformContext) (precision : ℕ),
      name ∈ ["rect", "circle", "ellipse", "line", "polyline"] →
      styleHasTransform style = false →
      applyTransformTokens context transform = .ok context1 →
      extractPaths (.mk name style transform viewBox d children) context precision =
        .error (.unsupportedElement name)) ∧
    (∀ (style : Option String) (pre post : List TransformToken) (args : List ℚ)
        (name : String) (viewBox d : Option String) (children : List Node)
        (context context1 : TransformContext) (precision : ℕ),
      styleHasTransform style = false →
      applyTransformTokens context pre = .ok context1 →
      extractPaths (.mk name style (pre ++ ⟨"rotate", args⟩ :: post) viewBox d children)
        context precision = .error (.unsupportedTransform "rotate")) ∧
    (∀ (data : String) (context : TransformContext) (precision : ℕ),
      PathCmd.other 'C' ∈ parsePathData data →
      ∃ ch, normalizePathData data context precision = .error (.unsupportedPathCommand ch)) := by
  refine ⟨?_, ?_, ?_, ?_⟩
  · intro input options root hroot hvb
    rw [sketchToIcon, hroot]
    simp only [hvb]
  · intro name style transform viewBox d children context context1 precision hname hstyle happly
    have h1 : name = "rect" ∨ name = "circle" ∨ name = "ellipse" ∨ name = "line" ∨
        name = "polyline" := by
      simpa using hname
    rw [extractPaths, hstyle]
    simp only [Bool.false_eq_true, if_false]
    rw [happly]
    simp only [if_pos h1]
  · intro style pre post args name viewBox d children context context1 precision hstyle happly
    have happly2 : applyTransformTokens context (pre ++ ⟨"rotate", args⟩ :: post) =
        .error (.unsupportedTransform "rotate") := by
      rw [applyTransformTokens, List.foldlM_append]
      rw [show List.foldlM applyTransformToken context pre =
          applyTransformTokens context pre from rfl, happly]
      rfl
    rw [extractPaths, hstyle]
    simp only [Bool.false_eq_true, if_false]
    rw [happly2]
  · intro data context precision hmem
    obtain ⟨ch, hch⟩ := mapM_transformPathCommand_err context (parsePathData data) ⟨'C', hmem⟩
    exact ⟨ch, normalizePathData_eq_err hch⟩

/-- Witness for C5: an `svg` root without `viewBox` yields the missing
viewbox error; a `rect` yields the unsupported element error; a
`rotate(45)` transform yields the unsupported transform error; and a `C`
path command yields the unsupported path command error. -/
theorem C5_witness :
    sketchToIcon (.mk "svg" none [] none none []) ⟨none, none, none, none⟩ =
      .error .missingViewbox ∧
    extractPaths (.mk "rect" none [] none none []) ⟨(0, 0), (1, 1)⟩ 5 =
      .error (.unsupportedElement "rect") ∧
    extractPaths (.mk "g" none [⟨"rotate", [45]⟩] none none []) ⟨(0, 0), (1, 1)⟩ 5 =
      .error (.unsupportedTransform "rotate") ∧
    ∃ ch, normalizePathData "M 0 0 C 1 1" ⟨(0, 0), (1, 1)⟩ 5 =
      .error (.unsupportedPathCommand ch) := by
  refine ⟨?_, ?_, ?_, ?_⟩
  · exact C5_error_conditions.1 (.mk "svg" none [] none none []) ⟨none, none, none, none⟩
      (.mk "svg" none [] none none []) (by simp [findRoot]) rfl
  · exact C5_error_conditions.2.1 "rect" none [] none none [] ⟨(0, 0), (1, 1)⟩
      ⟨(0, 0), (1, 1)⟩ 5 (by decide) (by decide) rfl
  · exact C5_error_conditions.2.2.1 none [] [] [45] "g" none none [] ⟨(0, 0), (1, 1)⟩
      ⟨(0, 0), (1, 1)⟩ 5 (by decide) rfl
  · exact C5_error_conditions.2.2.2 "M 0 0 C 1 1" ⟨(0, 0), (1, 1)⟩ 5 (by decide)

/-- C6 (amended): the viewport resolver fails with `InvalidViewboxError`
exactly when one of the four parsed viewbox numbers is `NaN`
(equivalently, when a derived value is `NaN`); no positivity or
finiteness check is performed on the derived width and height. -/
theorem C6_invalid_viewbox_iff :
    (∀ (vbStr : String) (pf : ℚ),
      resolveViewport vbStr pf = none ↔
        parseNum ((splitSpace vbStr.data).getD 0 []) = none ∨
        parseNum ((splitSpace vbStr.data).getD 1 []) = none ∨
        parseNum ((splitSpace vbStr.data).getD 2 []) = none ∨
        parseNum ((splitSpace vbStr.data).getD 3 []) = none) ∧
    (∀ (input : Node) (options : Options) (root : Node) (vbStr : String),
      findRoot input = some root → root.viewBox = some vbStr → ¬vbStr = "" →
      resolveViewport vbStr (options.exportedPaddingFactor.getD (1 / 100)) = none →
      sketchToIcon input options = .error .invalidViewbox) := by
  constructor
  · intro vbStr pf
    simp only [resolveViewport]
    cases h0 : parseNum ((splitSpace vbStr.data).getD 0 []) <;>
      cases h1 : parseNum ((splitSpace vbStr.data).getD 1 []) <;>
        cases h2 : parseNum ((splitSpace vbStr.data).getD 2 []) <;>
          cases h3 : parseNum ((splitSpace vbStr.data).getD 3 []) <;>
            simp [h0, h1, h2, h3]
  · intro input options root vbStr hroot hvb hne hres
    rw [sketchToIcon, hroot]
    simp only [hvb, if_neg hne, hres]

/-- Counterexample to C6 as stated: a viewbox with negative width `-5`
parses and derives finite values, so the conversion succeeds instead of
failing — the claimed positivity requirement is not checked. -/
theorem C6_counterexample :
    resolveViewport "0 0 -5 10" 0 = some (0, 0, -5, 10) ∧
    (-5 : ℚ) < 0 ∧
    sketchToIcon (.mk "svg" none [] (some "0 0 -5 10") none []) ⟨some 0, none, none, none⟩ =
      .ok (svgDoc "-5" "10" "" "currentColor" "evenodd") := by
  refine ⟨by decide, by norm_num, ?_⟩
  have hextract : extractPaths (.mk "svg" none [] (some "0 0 -5 10") none [])
      ⟨(0, 0), (1, 1)⟩ 5 = .ok [] := by
    rw [extractPaths]
    simp only [extractPathsList.eq_def]
    decide
  rw [sketchToIcon,
    show findRoot (.mk "svg" none [] (some "0 0 -5 10") none []) =
      some (.mk "svg" none [] (some "0 0 -5 10") none []) from by simp [findRoot]]
  simp only [Node.viewBox, Option.getD_none, Option.getD_some]
  rw [if_neg (by decide)]
  rw [show resolveViewport "0 0 -5 10" 0 = some (0, 0, -5, 10) from by decide]
  simp only [hextract]
  decide

/-! ## Lemmas and claims: output assembly and the end-to-end offset -/

theorem extractPathsList_nil (context : TransformContext) (precision : ℕ) :
    extractPathsList [] context precision = .ok [] := by
  rw [extractPathsList.eq_def]

theorem extractPathsList_singleton (n : Node) (context : TransformContext) (precision : ℕ) :
    extractPathsList [n] context precision = extractPaths n context precision := by
  simp only [extractPathsList.eq_def]
  cases he : extractPaths n context precision with
  | error e => rfl
  | ok a => simp

theorem extractPaths_path_node {style : Option String} {transform : List TransformToken}
    {viewBox : Option String} {children : List Node} {context context1 : TransformContext}
    {precision : ℕ} {data s : String} {rest : List String}
    (hstyle : styleHasTransform style = false)
    (happly : applyTransformTokens context transform = .ok context1)
    (hdata : ¬data = "")
    (hnorm : normalizePathData data context1 precision = .ok s)
    (hkids : extractPathsList children context1 precision = .ok rest) :
    extractPaths (.mk "path" style transform viewBox (some data) children) context precision =
      .ok (s :: rest) := by
  rw [extractPaths, hstyle]
  simp only [Bool.false_eq_true, if_false]
  rw [happly]
  have hn1 : ¬(("path" : String) = "rect" ∨ ("path" : String) = "circle" ∨
      ("path" : String) = "ellipse" ∨ ("path" : String) = "line" ∨
      ("path" : String) = "polyline") := by decide
  simp only [if_neg hn1, if_pos rfl, if_neg hdata, hnorm, hkids]
  rfl

/-- Shared assembly fact: when the root is found, the viewbox resolves
and the walk succeeds, the conversion emits the `svgDoc` template with
the rendered dimensions, the space-joined paths, and the configured
fill attributes with their defaults. -/
theorem sketchToIcon_assembled (input : Node) (options : Options) (root : Node)
    (vbStr : String) (xOffset yOffset width height : ℚ) (paths : List String)
    (hroot : findRoot input = some root)
    (hvb : root.viewBox = some vbStr) (hne : ¬vbStr = "")
    (hres : resolveViewport vbStr (options.exportedPaddingFactor.getD (1 / 100)) =
      some (xOffset, yOffset, width, height))
    (hpaths : extractPaths root ⟨(xOffset, yOffset), (1, 1)⟩ (options.precision.getD 5) =
      .ok paths) :
    sketchToIcon input options =
      .ok (svgDoc (renderQ width) (renderQ height) (String.intercalate " " paths)
        (options.fill.getD "currentColor") (options.fillRule.getD "evenodd")) := by
  rw [sketchToIcon, hroot]
  simp only [hvb, if_neg hne, hres, hpaths]

/-- C8: every successful conversion emits a document with a single root
element carrying the namespace and version 1.1, the coordinate frame
`0 0 width height`, and exactly one path element whose data is the
space-joined normalized path strings in traversal order, with `fill` and
`fill-rule` from configuration defaulting to `currentColor` and
`evenodd`. -/
theorem C8_output_document (input : Node) (options : Options) (root : Node)
    (vbStr : String) (xOffset yOffset width height : ℚ) (paths : List String)
    (hroot : findRoot input = some root)
    (hvb : root.viewBox = some vbStr) (hne : ¬vbStr = "")
    (hres : resolveViewport vbStr (options.exportedPaddingFactor.getD (1 / 100)) =
      some (xOffset, yOffset, width, height))
    (hpaths : extractPaths root ⟨(xOffset, yOffset), (1, 1)⟩ (options.precision.getD 5) =
      .ok paths) :
    sketchToIcon input options =
      .ok (svgDoc (renderQ width) (renderQ height) (String.intercalate " " paths)
        (options.fill.getD "currentColor") (options.fillRule.getD "evenodd")) :=
  sketchToIcon_assembled input options root vbStr xOffset yOffset width height paths
    hroot hvb hne hres hpaths

/-- Witness for C8: a concrete conversion producing the full document
with default fill attributes. -/
theorem C8_witness :
    sketchToIcon (.mk "svg" none [] (some "0 1 4 8") none
        [.mk "path" none [] none (some "L 1 2") []]) ⟨some 0, none, none, none⟩ =
      .ok (svgDoc (renderQ 4) (renderQ 8)
        (String.intercalate " " ["L 1 3"]) "currentColor" "evenodd") := by
  have hchild : extractPaths (.mk "path" none [] none (some "L 1 2") [])
      ⟨(0, 1), (1, 1)⟩ 5 = .ok ["L 1 3"] :=
    extractPaths_path_node (by decide) rfl (by decide) (by decide)
      (extractPathsList_nil _ _)
  have hroot : extractPaths (.mk "svg" none [] (some "0 1 4 8") none
      [.mk "path" none [] none (some "L 1 2") []]) ⟨(0, 1), (1, 1)⟩ 5 = .ok ["L 1 3"] := by
    rw [extractPaths_container_eq "svg" none [] (some "0 1 4 8") none
      [.mk "path" none [] none (some "L 1 2") []] ⟨(0, 1), (1, 1)⟩ 5 (by decide) (by decide)]
    rw [show ((applyTransformTokens ⟨(0, 1), (1, 1)⟩ []) >>= fun c =>
        extractPathsList [Node.mk "path" none [] none (some "L 1 2") []] c 5) =
        extractPathsList [.mk "path" none [] none (some "L 1 2") []] ⟨(0, 1), (1, 1)⟩ 5
        from rfl]
    rw [extractPathsList_singleton, hchild]
  exact C8_output_document (.mk "svg" none [] (some "0 1 4 8") none
      [.mk "path" none [] none (some "L 1 2") []]) ⟨some 0, none, none, none⟩
    (.mk "svg" none [] (some "0 1 4 8") none [.mk "path" none [] none (some "L 1 2") []])
    "0 1 4 8" 0 1 4 8 ["L 1 3"] (by simp [findRoot]) rfl (by decide) (by decide) hroot

theorem resolveViewport_parts (vbStr : String) (t0 t1 t2 t3 : List Char)
    (minX minY w h : ℚ)
    (hsplit : splitSpace vbStr.data = [t0, t1, t2, t3])
    (h0 : parseNum t0 = some minX) (h1 : parseNum t1 = some minY)
    (h2 : parseNum t2 = some w) (h3 : parseNum t3 = some h) :
    resolveViewport vbStr 0 = some (minX, minY, w, h) := by
  simp only [resolveViewport, hsplit, List.getD_cons_zero, List.getD_cons_succ,
    h0, h1, h2, h3, Option.map_some']
  norm_num

theorem splitSpace_four_ne_empty (vbStr : String) (t0 t1 t2 t3 : List Char)
    (hsplit : splitSpace vbStr.data = [t0, t1, t2, t3]) : ¬vbStr = "" := by
  intro hcon
  subst hcon
  rw [show ("" : String).data = [] from rfl] at hsplit
  simp [splitSpace] at hsplit

theorem extractPaths_svg_single (vbStr data : String) (minX minY : ℚ) (p : ℕ) (s : String)
    (hchild : extractPaths (.mk "path" none [] none (some data) [])
      ⟨(minX, minY), (1, 1)⟩ p = .ok [s]) :
    extractPaths (.mk "svg" none [] (some vbStr) none
      [.mk "path" none [] none (some data) []]) ⟨(minX, minY), (1, 1)⟩ p = .ok [s] := by
  rw [extractPaths_container_eq "svg" none [] (some vbStr) none
    [.mk "path" none [] none (some data) []] ⟨(minX, minY), (1, 1)⟩ p
    (by decide) (by decide)]
  rw [show ((applyTransformTokens ⟨(minX, minY), (1, 1)⟩ []) >>= fun c =>
      extractPathsList [Node.mk "path" none [] none (some data) []] c p) =
      extractPathsList [.mk "path" none [] none (some data) []]
        ⟨(minX, minY), (1, 1)⟩ p from rfl]
  rw [extractPathsList_singleton, hchild]

theorem sketchToIcon_single_path (vbStr data : String) (minX minY w h : ℚ) (p : ℕ)
    (s : String) (fill fillRule : Option String)
    (hvbne : ¬vbStr = "")
    (hres : resolveViewport vbStr 0 = some (minX, minY, w, h))
    (hroot : extractPaths (.mk "svg" none [] (some vbStr) none
      [.mk "path" none [] none (some data) []]) ⟨(minX, minY), (1, 1)⟩ p = .ok [s]) :
    sketchToIcon (.mk "svg" none [] (some vbStr) none
        [.mk "path" none [] none (some data) []]) ⟨some 0, fill, fillRule, some p⟩ =
      .ok (svgDoc (renderQ w) (renderQ h) s
        (fill.getD "currentColor") (fillRule.getD "evenodd")) := by
  exact sketchToIcon_assembled (.mk "svg" none [] (some vbStr) none
      [.mk "path" none [] none (some data) []]) ⟨some 0, fill, fillRule, some p⟩
    (.mk "svg" none [] (some vbStr) none [.mk "path" none [] none (some data) []])
    vbStr minX minY w h [s] (by simp [findRoot]) rfl hvbne hres hroot

theorem extractPaths_single_path_child (minX minY : ℚ) (p : ℕ) (data : String)
    (cmds : List PathCmd)
    (hdata : ¬data = "")
    (hparse : parsePathData data = cmds)
    (hml : ∀ c ∈ cmds, isML c = true) :
    extractPaths (.mk "path" none [] none (some data) [])
      ⟨(minX, minY), (1, 1)⟩ p = .ok [renderPathData p (cmds.map (fun c =>
        match c with
        | PathCmd.M x y =>
            PathCmd.M (limitPrecision p (x + minX)) (limitPrecision p (y + minY))
        | PathCmd.L x y =>
            PathCmd.L (limitPrecision p (x + minX)) (limitPrecision p (y + minY))
        | c => c))] := by
  have hmap : (cmds.map (shiftML ⟨(minX, minY), (1, 1)⟩)).map (limitPathCommand p) =
      cmds.map (fun c =>
        match c with
        | PathCmd.M x y =>
            PathCmd.M (limitPrecision p (x + minX)) (limitPrecision p (y + minY))
        | PathCmd.L x y =>
            PathCmd.L (limitPrecision p (x + minX)) (limitPrecision p (y + minY))
        | c => c) := by
    rw [List.map_map]
    apply List.map_congr_left
    intro c hc
    have hcML := hml c hc
    cases c with
    | M x y => simp [shiftML, limitPathCommand, Function.comp]
    | L x y => simp [shiftML, limitPathCommand, Function.comp]
    | A rx ry rot laf swf x y => simp [isML] at hcML
    | other ch => simp [isML] at hcML
  have hnorm : normalizePathData data ⟨(minX, minY), (1, 1)⟩ p =
      .ok (renderPathData p ((cmds.map (shiftML ⟨(minX, minY), (1, 1)⟩)).map
        (limitPathCommand p))) :=
    normalizePathData_eq_ok (by rw [hparse]; exact mapM_transformPathCommand_ML _ cmds hml)
  rw [hmap] at hnorm
  exact extractPaths_path_node (by decide) rfl hdata hnorm (extractPathsList_nil _ _)

/-- C1 (amended): for a valid single-path input with no transform
attributes and padding factor 0, every output coordinate equals the
corresponding input coordinate PLUS the corresponding viewbox origin
component (min-x for x, min-y for y), rounded to the configured
precision; the code seeds the root translation with the offsets and
adds them, it does not subtract the origin. -/
theorem C1_single_path_offset (vbStr data : String) (t0 t1 t2 t3 : List Char)
    (minX minY w h : ℚ) (cmds : List PathCmd) (fill fillRule : Option String) (p : ℕ)
    (hsplit : splitSpace vbStr.data = [t0, t1, t2, t3])
    (h0 : parseNum t0 = some minX) (h1 : parseNum t1 = some minY)
    (h2 : parseNum t2 = some w) (h3 : parseNum t3 = some h)
    (hdata : ¬data = "")
    (hparse : parsePathData data = cmds)
    (hml : ∀ c ∈ cmds, isML c = true) :
    sketchToIcon (.mk "svg" none [] (some vbStr) none
        [.mk "path" none [] none (some data) []]) ⟨some 0, fill, fillRule, some p⟩ =
      .ok (svgDoc (renderQ w) (renderQ h)
        (renderPathData p (cmds.map (fun c =>
          match c with
          | PathCmd.M x y =>
              PathCmd.M (limitPrecision p (x + minX)) (limitPrecision p (y + minY))
          | PathCmd.L x y =>
              PathCmd.L (limitPrecision p (x + minX)) (limitPrecision p (y + minY))
          | c => c)))
        (fill.getD "currentColor") (fillRule.getD "evenodd")) :=
  sketchToIcon_single_path vbStr data minX minY w h p _ fill fillRule
    (splitSpace_four_ne_empty vbStr t0 t1 t2 t3 hsplit)
    (resolveViewport_parts vbStr t0 t1 t2 t3 minX minY w h hsplit h0 h1 h2 h3)
    (extractPaths_svg_single vbStr data minX minY p _
      (extractPaths_single_path_child minX minY p data cmds hdata hparse hml))

/-- Witness for C1 (amended) at a concrete input: viewbox origin
`(0, 1)`, path `L 1 2`, output endpoint `(1 + 0, 2 + 1) = (1, 3)`. -/
theorem C1_witness :
    sketchToIcon (.mk "svg" none [] (some "0 1 4 8") none
        [.mk "path" none [] none (some "L 1 2") []]) ⟨some 0, none, none, some 5⟩ =
      .ok (svgDoc (renderQ 4) (renderQ 8)
        (renderPathData 5 ([PathCmd.L 1 2].map (fun c =>
          match c with
          | PathCmd.M x y =>
              PathCmd.M (limitPrecision 5 (x + 0)) (limitPrecision 5 (y + 1))
          | PathCmd.L x y =>
              PathCmd.L (limitPrecision 5 (x + 0)) (limitPrecision 5 (y + 1))
          | c => c)))
        "currentColor" "evenodd") :=
  C1_single_path_offset "0 1 4 8" "L 1 2" "0".data "1".data "4".data "8".data
    0 1 4 8 [PathCmd.L 1 2] none none 5 (by decide) (by decide) (by decide) (by decide)
    (by decide) (by decide) (by decide) (by decide)

/-- Counterexample to C1 as stated: with viewbox origin `(1, 2)`,
padding 0 and input point `(2, 3)`, the output point is `(3, 5)` (input
plus origin), not `(1, 1)` (input minus origin) as the claim requires. -/
theorem C1_counterexample :
    sketchToIcon (.mk "svg" none [] (some "1 2 10 20") none
        [.mk "path" none [] none (some "M 2 3") []]) ⟨some 0, none, none, none⟩ =
      .ok (svgDoc "10" "20" "M 3 5" "currentColor" "evenodd") ∧
    ¬((3 : ℚ) = limitPrecision 5 (2 - 1) ∧ (5 : ℚ) = limitPrecision 5 (3 - 2)) := by
  constructor
  · have hchild : extractPaths (.mk "path" none [] none (some "M 2 3") [])
        ⟨(1, 2), (1, 1)⟩ 5 = .ok ["M 3 5"] :=
      extractPaths_path_node (by decide) rfl (by decide) (by decide)
        (extractPathsList_nil _ _)
    have hroot : extractPaths (.mk "svg" none [] (some "1 2 10 20") none
        [.mk "path" none [] none (some "M 2 3") []]) ⟨(1, 2), (1, 1)⟩ 5 = .ok ["M 3 5"] := by
      rw [extractPaths_container_eq "svg" none [] (some "1 2 10 20") none
        [.mk "path" none [] none (some "M 2 3") []] ⟨(1, 2), (1, 1)⟩ 5 (by decide) (by decide)]
      rw [show ((applyTransformTokens ⟨(1, 2), (1, 1)⟩ []) >>= fun c =>
          extractPathsList [Node.mk "path" none [] none (some "M 2 3") []] c 5) =
          extractPathsList [.mk "path" none [] none (some "M 2 3") []] ⟨(1, 2), (1, 1)⟩ 5
          from rfl]
      rw [extractPathsList_singleton, hchild]
    have hfinal := sketchToIcon_assembled (.mk "svg" none [] (some "1 2 10 20") none
        [.mk "path" none [] none (some "M 2 3") []]) ⟨some 0, none, none, none⟩
      (.mk "svg" none [] (some "1 2 10 20") none [.mk "path" none [] none (some "M 2 3") []])
      "1 2 10 20" 1 2 10 20 ["M 3 5"] (by simp [findRoot]) rfl (by decide) (by decide) hroot
    rw [hfinal]
    decide
  · decide

end SketchToIcon
